import Mathlib

/-!
Hidden-message decoder for bitmap images: embedding and verification.

The repository holds three C programs over the same bitmap layout:

* `main3.c`: the sequential scanner and the extractor `print_message`;
* `main.c`: an earlier variant of the same pair, with diagnostics;
* `test.c`: the threaded scanner `parallel_message_detect` with AVX2 compares.

The C code is embedded shallowly.  Memory reachable from the pointer
`pixel_data` is a partial function from byte offsets to bytes: an offset
without a byte is an address that is not mapped.  A load from an unmapped
address raises `SIGSEGV`, which ends the run; `write(1, p, 1)` with an
unmapped `p` fails with `EFAULT`, writes nothing and returns; an integer
division by zero raises `SIGFPE`.  Descriptor 1 is taken to accept every byte
written to it.  Every `u32` expression is reduced modulo `2 ^ 32`; `int`
values are mathematical integers (signed overflow, which C leaves undefined, is
outside the model); conversions between `u32` and `int` are two's complement.
The offsets of `pixel_data` that are loaded or passed to `write(1, ...)` and
the bytes written are recorded in the state, so that statements about what is
read and written can be made.  A loop that need not terminate takes a bound on
the number of its passes and yields `none` when the bound is reached.
-/

namespace Forking42

/-! ## Machine integers and memory -/

/-- Bytes addressed relative to the pointer `pixel_data`: offset to byte, or
`none` where the address `pixel_data + offset` is not mapped. -/
abbrev Mem := Nat → Option Nat

/-- The address `pixel_data + i` is mapped: a load from it yields a byte, and
`write` can take its byte from it. -/
def readable (pixel_data : Mem) (i : Nat) : Bool := (pixel_data i).isSome

/-- The value of a `u8` load `pixel_data[i]` from a mapped address.  A load
from an unmapped address yields no value: the code that loads tests `readable`
first and ends in `SIGSEGV` there; `0` stands for the value that is never
obtained. -/
def load (pixel_data : Mem) (i : Nat) : Nat :=
  match pixel_data i with
  | some b => b % 256
  | none => 0

/-- Conversion of an `int` to `u32`. -/
def to_u32 (z : Int) : Nat := (z % 4294967296).toNat

/-- Conversion of a `u32` to `int` (two's complement). -/
def to_i32 (n : Nat) : Int :=
  if n % 4294967296 < 2147483648 then ((n % 4294967296 : Nat) : Int)
  else ((n % 4294967296 : Nat) : Int) - 4294967296

/-- Memory of a file made of a header of 54 bytes (`data_offset = 54`) followed
by `bytes`, of at most 4096 bytes in all, as `mmap` maps it: one page of 4096
bytes, `pixel_data` pointing 54 bytes into it.  The offsets `0 .. 4041` are
mapped; they hold `bytes` and, past the end of the file, zeros.  No other
address is mapped. -/
def mem_of (bytes : List Nat) : Mem := fun i => if i < 4042 then some (bytes.getD i 0) else none

/-- Memory of a file whose pixel bytes `bytes` end where its last page ends
(its header gives `data_offset = file size - bytes.length`): exactly the
offsets of `bytes` are mapped. -/
def mem_exact (bytes : List Nat) : Mem := fun i => bytes.get? i

/-! ## `main3.c`: the extractor `print_message` -/

namespace Main3

/-- State of `print_message`: the parameters it mutates (`message_len`, `y`),
the bytes written to descriptor 1 so far, and the offsets of `pixel_data`
whose addresses were passed to `write(1, ...)` so far. -/
structure PrintState where
  message_len : Nat
  y : Int
  out : List Nat
  reads : List Nat
  deriving DecidableEq, Repr

/-- The expression `(y * row_size) + (x * 4)` stored into `u32 pixel_index`
(line 69): `y` and `x` are `int`, `row_size` is `u32`. -/
def pixel_index (y : Int) (row_size : Nat) (x : Int) : Nat :=
  to_u32 (y * (row_size : Int) + x * 4)

/-- One guarded emission:
`if (message_len) { write(1, &pixel_data[pixel_index + k], 1); message_len--; }`.
The address is passed to `write`, which copies the byte out of a mapped
address and fails with `EFAULT`, writing nothing, on an unmapped one; its
result is not looked at, and `message_len--` runs in both cases. -/
def emit (pixel_data : Mem) (off : Nat) (st : PrintState) : PrintState :=
  if st.message_len ≠ 0 then
    { st with
      out :=
        match pixel_data off with
        | some b => st.out ++ [b % 256]
        | none => st.out
      reads := st.reads ++ [off]
      message_len := st.message_len - 1 }
  else st

/-- Body of the inner loop for one `x` (lines 69-79): three guarded emissions
at `pixel_index + 0`, `+ 1`, `+ 2` (`u32` additions). -/
def print_pixel (pixel_data : Mem) (row_size : Nat) (x : Int) (st : PrintState) :
    PrintState :=
  let idx := pixel_index st.y row_size x
  emit pixel_data ((idx + 2) % 4294967296)
    (emit pixel_data ((idx + 1) % 4294967296)
      (emit pixel_data ((idx + 0) % 4294967296) st))

/-- The inner loop `while (x <= end_x) { ...; x++; }`.  The first argument
bounds the number of passes; `print_loop` supplies `end_x + 1 - start_x`,
which is the exact number of passes from `x = start_x`. -/
def print_row (pixel_data : Mem) (row_size : Nat) (end_x : Int) :
    Nat → Int → PrintState → PrintState
  | 0, _, st => st
  | n + 1, x, st =>
    if x ≤ end_x then
      print_row pixel_data row_size end_x n (x + 1) (print_pixel pixel_data row_size x st)
    else st

/-- The outer loop `while (message_len) { x = start_x; <inner loop>; y--; }`.
`fuel` bounds the number of passes of the body; `none` means the bound was
reached with `message_len` still nonzero. -/
def print_loop (pixel_data : Mem) (row_size : Nat) (start_x end_x : Int) :
    Nat → PrintState → Option PrintState
  | fuel, st =>
    if st.message_len = 0 then some st
    else
      match fuel with
      | 0 => none
      | n + 1 =>
        let st1 := print_row pixel_data row_size end_x (end_x + 1 - start_x).toNat start_x st
        print_loop pixel_data row_size start_x end_x n { st1 with y := st1.y - 1 }

/-- The function `print_message` of `main3.c` (lines 61-85).  `message_len` is
an `unsigned short` parameter, hence the reduction modulo `65536`. -/
def print_message (pixel_data : Mem) (fuel : Nat) (message_len : Nat) (y start_x end_x : Int)
    (row_size : Nat) : Option PrintState :=
  print_loop pixel_data row_size start_x end_x fuel
    { message_len := message_len % 65536, y := y, out := [], reads := [] }

/-! ## `main3.c`: the sequential scanner in `main` -/

/-- The fields of `struct bmp_header` that `main` uses, with the memory that
starts at `pixel_data = file_content.data + header->data_offset`.  The fields
`width` and `height` are `u32`, `bit_per_pixel` is `u16`. -/
structure Image where
  width : Nat
  height : Nat
  bit_per_pixel : Nat
  pixel_data : Mem

/-- The expression `((header->width * header->bit_per_pixel + 31) / 32) * 4`
stored into `u32 row_size` (line 115), in `u32` arithmetic. -/
def row_size (width bit_per_pixel : Nat) : Nat :=
  (width * bit_per_pixel + 31) % 4294967296 / 32 * 4

/-- The expression `(y * row_size) + (x * 4)` stored into `u32 pixel_index`
(line 117): all operands are `u32`. -/
def scan_index (y row_size x : Nat) : Nat := (y * row_size + x * 4) % 4294967296

/-- The locals of `main` that the scan mutates (`found_header`, `header_line`),
with the offsets of `pixel_data` loaded from so far (a load that faults
included) and the number of completed passes of the loop body.  The local
`message_x` is never assigned after its initialisation to `0`, so the branch
`if (message_x != 0)` is never taken and is left out. -/
structure ScanState where
  found_header : Nat
  header_line : Nat
  reads : List Nat
  iters : Nat
  deriving DecidableEq, Repr

/-- The arguments of the call of `print_message` on line 130. -/
structure Call where
  message_len : Nat
  y : Int
  start_x : Int
  end_x : Int
  row_size : Nat
  deriving DecidableEq, Repr

/-- What one pass (or the whole scan) leads to: the loop goes on with a new
state; or the third branch is taken at pixel `(y, x)`, `print_message` is
called with the recorded arguments and `main` returns; or a load of lines
119-121 is from an unmapped address and the run is killed by `SIGSEGV`, the
faulting offset being the last of `st.reads`. -/
inductive Outcome where
  | continue (st : ScanState)
  | resolved (st : ScanState) (y x : Nat) (c : Call)
  | sigsegv (st : ScanState)
  deriving DecidableEq, Repr

/-- The three channel bytes that the loop body reads at `(y, x)` (lines
117-121), when the loads succeed. -/
def blue (img : Image) (y x : Nat) : Nat :=
  load img.pixel_data ((scan_index y (row_size img.width img.bit_per_pixel) x + 0) % 4294967296)

/-- The green byte read at `(y, x)` (line 120). -/
def green (img : Image) (y x : Nat) : Nat :=
  load img.pixel_data ((scan_index y (row_size img.width img.bit_per_pixel) x + 1) % 4294967296)

/-- The red byte read at `(y, x)` (line 121). -/
def red (img : Image) (y x : Nat) : Nat :=
  load img.pixel_data ((scan_index y (row_size img.width img.bit_per_pixel) x + 2) % 4294967296)

/-- The arguments of the call on line 130, made at pixel `(y, x)`:
`message_len = blue + red` (line 129, stored into a `u16`), then `y -= 2` (a
`u32` subtraction), `found_header + 2` and `x`, each converted to `int`, and
`row_size`. -/
def call_args (img : Image) (y x found_header : Nat) : Call :=
  { message_len := (blue img y x + red img y x) % 65536
    y := to_i32 ((y + 4294967296 - 2) % 4294967296)
    start_x := to_i32 ((found_header + 2) % 4294967296)
    end_x := to_i32 x
    row_size := row_size img.width img.bit_per_pixel }

/-- The three loads of lines 119-121 at pixel `(y, x)` all succeed: the offsets
`pixel_index + 0`, `+ 1` and `+ 2` are mapped. -/
def pixel_readable (img : Image) (y x : Nat) : Bool :=
  readable img.pixel_data
      ((scan_index y (row_size img.width img.bit_per_pixel) x + 0) % 4294967296) &&
    readable img.pixel_data
      ((scan_index y (row_size img.width img.bit_per_pixel) x + 1) % 4294967296) &&
    readable img.pixel_data
      ((scan_index y (row_size img.width img.bit_per_pixel) x + 2) % 4294967296)

/-- The body of the scan loops for one pixel (lines 112-135).  The loads of
`blue`, `green` and `red` come first, in this order; the first of them that is
from an unmapped address ends the run.  The third condition is the one of the
source, `!(blue == 127 && green == 188 && red)`: its last conjunct tests `red`
for being nonzero. -/
def scan_pixel (img : Image) (y x : Nat) (st : ScanState) : Outcome :=
  let rs := row_size img.width img.bit_per_pixel
  let idx := scan_index y rs x
  if readable img.pixel_data ((idx + 0) % 4294967296) = false then
    .sigsegv { st with reads := st.reads ++ [(idx + 0) % 4294967296] }
  else if readable img.pixel_data ((idx + 1) % 4294967296) = false then
    .sigsegv { st with reads := st.reads ++ [(idx + 0) % 4294967296, (idx + 1) % 4294967296] }
  else if readable img.pixel_data ((idx + 2) % 4294967296) = false then
    .sigsegv
      { st with
        reads := st.reads ++
          [(idx + 0) % 4294967296, (idx + 1) % 4294967296, (idx + 2) % 4294967296] }
  else
    let b := blue img y x
    let g := green img y x
    let r := red img y x
    let st1 : ScanState :=
      { st with
        reads := st.reads ++
          [(idx + 0) % 4294967296, (idx + 1) % 4294967296, (idx + 2) % 4294967296]
        iters := st.iters + 1 }
    if b = 127 ∧ g = 188 ∧ r = 217 ∧ st1.found_header = 0 then
      .continue { st1 with found_header := x }
    else if b = 127 ∧ g = 188 ∧ r = 217 ∧ x > st1.found_header then
      .continue { st1 with header_line := 1 }
    else if ¬ (b = 127 ∧ g = 188 ∧ r ≠ 0) ∧ st1.header_line = 1 then
      .resolved st1 y x (call_args img y x st1.found_header)
    else .continue st1

/-- The inner loop `for (u32 x = 0; x < header->width; x++)`: `n` passes
remain, the next one is at column `x`. -/
def scan_row (img : Image) (y : Nat) : Nat → Nat → ScanState → Outcome
  | 0, _, st => .continue st
  | n + 1, x, st =>
    match scan_pixel img y x st with
    | .continue st1 => scan_row img y n (x + 1) st1
    | .resolved st1 y1 x1 c => .resolved st1 y1 x1 c
    | .sigsegv st1 => .sigsegv st1

/-- The outer loop `for (u32 y = 0; y < header->height; y++)`: `n` passes
remain, the next one is at row `y`. -/
def scan_rows (img : Image) : Nat → Nat → ScanState → Outcome
  | 0, _, st => .continue st
  | n + 1, y, st =>
    match scan_row img y img.width 0 st with
    | .continue st1 => scan_rows img n (y + 1) st1
    | .resolved st1 y1 x1 c => .resolved st1 y1 x1 c
    | .sigsegv st1 => .sigsegv st1

/-- The initial values of the locals of `main` (lines 103-106). -/
def scan_init : ScanState := { found_header := 0, header_line := 0, reads := [], iters := 0 }

/-- The two nested scan loops of `main` (lines 110-137). -/
def scan (img : Image) : Outcome := scan_rows img img.height 0 scan_init

/-- What a run of `main` that returns amounts to: the exit status, the bytes
written to descriptor 1, the calls of `print_message`, the number of passes of
the scan, the offsets loaded from by the scan, and the offsets whose addresses
the extractor passed to `write`. -/
structure Run where
  status : Nat
  out : List Nat
  calls : List Call
  iters : Nat
  scan_reads : List Nat
  print_reads : List Nat
  deriving DecidableEq, Repr

/-- How a run of `main` of `main3.c` on a file that could be mapped ends: by a
`return`, or killed by `SIGSEGV` in a load of the scan, in the given state of
the scan (nothing has been written and no call has been made then). -/
inductive Exit where
  | returned (run : Run)
  | sigsegv (st : ScanState)
  deriving DecidableEq, Repr

/-- The exit status of a run that returned. -/
def Exit.status : Exit → Option Nat
  | .returned run => some run.status
  | .sigsegv _ => none

/-- The bytes that a run has written to descriptor 1. -/
def Exit.out : Exit → List Nat
  | .returned run => run.out
  | .sigsegv _ => []

/-- The calls of `print_message` that a run has made. -/
def Exit.calls : Exit → List Call
  | .returned run => run.calls
  | .sigsegv _ => []

/-- The offsets whose addresses the extractor has passed to `write`. -/
def Exit.print_reads : Exit → List Nat
  | .returned run => run.print_reads
  | .sigsegv _ => []

/-- The function `main` of `main3.c` from line 103 on: the scan, then (when the
scan resolves) the single call of `print_message`, then `return 0`.  `fuel`
bounds the passes of the outer loop of `print_message`. -/
def main (fuel : Nat) (img : Image) : Option Exit :=
  match scan img with
  | .continue st =>
    some (.returned { status := 0, out := [], calls := [], iters := st.iters,
                      scan_reads := st.reads, print_reads := [] })
  | .resolved st _ _ c =>
    match print_message img.pixel_data fuel c.message_len c.y c.start_x c.end_x c.row_size with
    | none => none
    | some p =>
      some (.returned { status := 0, out := p.out, calls := [c], iters := st.iters,
                        scan_reads := st.reads, print_reads := p.reads })
  | .sigsegv st => some (.sigsegv st)

end Main3

/-! ## `test.c`: the vector compares and the worker `parallel_message_detect` -/

namespace TestC

/-- A 256-bit register (`__m256i`) as its 32 byte lanes: lane number (0 to 31,
lane 0 being the byte at the lowest address) to byte value. -/
abbrev M256 := Nat → Nat

/-- The intrinsic `_mm256_set1_epi8`: every byte lane holds the low 8 bits of
the argument. -/
def mm256_set1_epi8 (a : Nat) : M256 := fun _ => a % 256

/-- The intrinsic `_mm256_loadu_si256` applied to `&pixel_data[off]`: the 32
bytes at offsets `off`, ..., `off + 31`; `none` (the load raises `SIGSEGV`)
unless all 32 addresses are mapped. -/
def mm256_loadu_si256 (pixel_data : Mem) (off : Nat) : Option M256 :=
  if (List.range 32).all (fun i => readable pixel_data (off + i)) then
    some (fun i => load pixel_data (off + i))
  else none

/-- The intrinsic `_mm256_and_si256`: bitwise AND. -/
def mm256_and_si256 (a b : M256) : M256 := fun i => a i &&& b i

/-- The intrinsic `_mm256_cmpeq_epi8`: a byte lane is `0xFF` where the two
operands agree and `0` elsewhere. -/
def mm256_cmpeq_epi8 (a b : M256) : M256 := fun i => if a i = b i then 255 else 0

/-- The intrinsic `_mm256_srli_epi16`: every 16-bit lane (bytes `2j` and
`2j + 1`, little endian) is shifted right by `imm8` bits, zeros shifted in; a
count above 15 clears the lane. -/
def mm256_srli_epi16 (a : M256) (imm8 : Nat) : M256 := fun i =>
  let lane := a (2 * (i / 2)) % 256 + 256 * (a (2 * (i / 2) + 1) % 256)
  let shifted := if imm8 > 15 then 0 else lane >>> imm8
  (shifted >>> (8 * (i % 2))) % 256

/-- The intrinsic `_mm256_movemask_epi8`: bit `i` of the result is the top bit
of byte lane `i`. -/
def mm256_movemask_epi8 (a : M256) : Nat :=
  ((List.range 32).map (fun i => a i / 128 % 2 * 2 ^ i)).sum

/-- The register `blue_mask` of lines 81-84 for the 32 bytes loaded in
`pixel_vec`. -/
def blue_mask (pixel_vec : M256) : M256 :=
  mm256_cmpeq_epi8 (mm256_and_si256 pixel_vec (mm256_set1_epi8 255)) (mm256_set1_epi8 127)

/-- The register `green_mask` of lines 85-88. -/
def green_mask (pixel_vec : M256) : M256 :=
  mm256_cmpeq_epi8
    (mm256_and_si256 (mm256_srli_epi16 pixel_vec 8) (mm256_set1_epi8 255))
    (mm256_set1_epi8 188)

/-- The register `red_mask` of lines 89-92. -/
def red_mask (pixel_vec : M256) : M256 :=
  mm256_cmpeq_epi8
    (mm256_and_si256 (mm256_srli_epi16 pixel_vec 16) (mm256_set1_epi8 255))
    (mm256_set1_epi8 217)

/-- The register `combined_mask` of lines 95-98. -/
def combined_mask (pixel_vec : M256) : M256 :=
  mm256_and_si256 (mm256_and_si256 (blue_mask pixel_vec) (green_mask pixel_vec))
    (red_mask pixel_vec)

/-- The scalar predicate of the sequential scanners on the pixel number `p`
(0 to 7) of a 32-byte batch: `blue == 127 && green == 188 && red == 217`. -/
def scalar_match (pixel_vec : M256) (p : Nat) : Bool :=
  pixel_vec (4 * p) == 127 && pixel_vec (4 * p + 1) == 188 && pixel_vec (4 * p + 2) == 217

/-- The match that `combined_mask` reports for the pixel number `p` of the
batch: the byte lane of its first (blue) byte is set. -/
def vector_match (pixel_vec : M256) (p : Nat) : Bool :=
  combined_mask pixel_vec (4 * p) != 0

/-- The record `ThreadProcessArgs` without its mutex.  `thread_id` and
`total_threads` are `int` fields that `main` fills with values from `0` up. -/
structure ThreadProcessArgs where
  pixel_data : Mem
  width : Nat
  row_size : Nat
  height : Nat
  found_header : Nat
  message_len : Nat
  thread_id : Nat
  total_threads : Nat

/-- What one pass of the loop body of the worker leads to: the loop goes on,
the worker returns early (line 112), or a load is from an unmapped address and
raises `SIGSEGV`; each with the record as it then is. -/
inductive Step where
  | continue (a : ThreadProcessArgs)
  | returned (a : ThreadProcessArgs)
  | sigsegv (a : ThreadProcessArgs)

/-- The quotient `thread_args->height / thread_args->total_threads` of lines 57
and 59, a `u32` division; `none` when `total_threads` is zero, where the
division raises `SIGFPE`. -/
def rows_per_thread (a : ThreadProcessArgs) : Option Nat :=
  if a.total_threads = 0 then none else some (a.height / a.total_threads)

/-- The `u32 start_row` of lines 56-57; `none` when the division traps. -/
def start_row (a : ThreadProcessArgs) : Option Nat :=
  (rows_per_thread a).map (fun q => (a.thread_id * q) % 4294967296)

/-- The `u32 end_row` of lines 58-64; `none` when the division traps. -/
def end_row (a : ThreadProcessArgs) : Option Nat :=
  (rows_per_thread a).map (fun q =>
    if a.thread_id + 1 = a.total_threads then a.height
    else ((a.thread_id + 1) * q) % 4294967296)

/-- The loop body of the worker for one pixel (lines 73-115): the 32-byte load
of lines 76-78 comes first; inside the branch of line 101, lines 109-110 load
the blue and red bytes of the pixel once more. -/
def detect_pixel (a : ThreadProcessArgs) (y x : Nat) : Step :=
  let idx := (y * a.row_size + x * 4) % 4294967296
  match mm256_loadu_si256 a.pixel_data idx with
  | none => .sigsegv a
  | some pixel_vec =>
    if mm256_movemask_epi8 (combined_mask pixel_vec) ≠ 0 then
      if a.found_header = 0 then .continue { a with found_header := x }
      else if x > a.found_header then
        if readable a.pixel_data idx && readable a.pixel_data ((idx + 2) % 4294967296) then
          .returned
            { a with
              message_len :=
                (load a.pixel_data idx + load a.pixel_data ((idx + 2) % 4294967296)) % 65536 }
        else .sigsegv a
      else .continue a
    else .continue a

/-- The inner loop `for (u32 x = 0; x < thread_args->width; x++)`. -/
def detect_row (y : Nat) : Nat → Nat → ThreadProcessArgs → Step
  | 0, _, a => .continue a
  | n + 1, x, a =>
    match detect_pixel a y x with
    | .continue a1 => detect_row y n (x + 1) a1
    | .returned a1 => .returned a1
    | .sigsegv a1 => .sigsegv a1

/-- The outer loop `for (u32 y = start_row; y < end_row; y++)`. -/
def detect_rows : Nat → Nat → ThreadProcessArgs → Step
  | 0, _, a => .continue a
  | n + 1, y, a =>
    match detect_row y a.width 0 a with
    | .continue a1 => detect_rows n (y + 1) a1
    | .returned a1 => .returned a1
    | .sigsegv a1 => .sigsegv a1

/-- How a call of the worker ends: it returns, or it is killed by `SIGFPE` in
the division of line 57, or by `SIGSEGV` in a load; each with the record as it
then is. -/
inductive WorkerExit where
  | returned (a : ThreadProcessArgs)
  | sigfpe (a : ThreadProcessArgs)
  | sigsegv (a : ThreadProcessArgs)

/-- The record as the worker leaves it. -/
def WorkerExit.record : WorkerExit → ThreadProcessArgs
  | .returned a => a
  | .sigfpe a => a
  | .sigsegv a => a

/-- The number of the signal that killed the worker (8 is `SIGFPE`, 11 is
`SIGSEGV`); `none` when the worker has returned. -/
def WorkerExit.signal : WorkerExit → Option Nat
  | .returned _ => none
  | .sigfpe _ => some 8
  | .sigsegv _ => some 11

/-- The worker `parallel_message_detect` (lines 52-120). -/
def parallel_message_detect (a : ThreadProcessArgs) : WorkerExit :=
  match start_row a, end_row a with
  | some s, some e =>
    match detect_rows (e - s) s a with
    | .continue a1 => .returned a1
    | .returned a1 => .returned a1
    | .sigsegv a1 => .sigsegv a1
  | _, _ => .sigfpe a

/-- The record that `main` of `test.c` prepares for thread `i` (lines 162-172),
`row_size` being computed on line 151. -/
def thread_args (img : Main3.Image) (num_threads i : Nat) : ThreadProcessArgs :=
  { pixel_data := img.pixel_data
    width := img.width
    row_size := Main3.row_size img.width img.bit_per_pixel
    height := img.height
    found_header := 0
    message_len := 0
    thread_id := i
    total_threads := num_threads }

/-- The calls of the worker that `main` of `test.c` starts as threads and joins
(lines 175-183), each with the way it ends.  Every thread owns its record and
only reads `pixel_data`, so what a thread does is a function of its own record
alone. -/
def run_threads (img : Main3.Image) (num_threads : Nat) : List WorkerExit :=
  (List.range num_threads).map (fun i => parallel_message_detect (thread_args img num_threads i))

end TestC

/-! ## `main.c`: the earlier variant of the extractor and of the scanner

The `printf` diagnostics of `main.c` go to the stdio buffer of `stdout`; they
are left out, and `out` holds only the bytes passed to `write(1, ...)`.  The
integer division by zero, which C leaves undefined and which raises `SIGFPE`
on the targeted machines, is a result of its own; so is a load from an
unmapped address, which raises `SIGSEGV`. -/

namespace MainC

/-- State of `print_message` of `main.c`: as for `main3.c`, except that
`message_len` is an `int`. -/
structure PrintState where
  message_len : Int
  y : Int
  out : List Nat
  reads : List Nat
  deriving DecidableEq, Repr

/-- Where the loops of `print_message` of `main.c` stand: still running, or
killed by `SIGSEGV` in a load, the faulting offset being the last of
`st.reads`. -/
inductive Progress where
  | running (st : PrintState)
  | sigsegv (st : PrintState)
  deriving DecidableEq, Repr

/-- One guarded emission (lines 70-73, 74-77, 78-81):
`if (message_len) { u8 b = pixel_data[pixel_index + k]; write(1, &b, 1); message_len--; }`.
The byte is loaded into a local first, which raises `SIGSEGV` on an unmapped
address; the address passed to `write` is that of the local. -/
def emit (pixel_data : Mem) (off : Nat) (st : PrintState) : Progress :=
  if st.message_len ≠ 0 then
    match pixel_data off with
    | some b =>
      .running
        { st with
          out := st.out ++ [b % 256]
          reads := st.reads ++ [off]
          message_len := st.message_len - 1 }
    | none => .sigsegv { st with reads := st.reads ++ [off] }
  else .running st

/-- Sequencing: the next statement runs if the run has not been killed. -/
def Progress.and_then (p : Progress) (f : PrintState → Progress) : Progress :=
  match p with
  | .running st => f st
  | .sigsegv st => .sigsegv st

/-- Body of the inner loop for one `x` (lines 68-82); `pixel_index` is the
`u32` value of `(y * row_size) + (x * 4)`. -/
def print_pixel (pixel_data : Mem) (row_size : Nat) (x : Int) (st : PrintState) :
    Progress :=
  let idx := to_u32 (st.y * (row_size : Int) + x * 4)
  ((emit pixel_data ((idx + 0) % 4294967296) st).and_then
    (emit pixel_data ((idx + 1) % 4294967296))).and_then
      (emit pixel_data ((idx + 2) % 4294967296))

/-- The inner loop `while (x <= end_x) { ...; x++; }` (lines 67-86); the first
argument bounds the number of passes, `end_x + 1 - start_x` being the exact
number of passes from `x = start_x`. -/
def print_row (pixel_data : Mem) (row_size : Nat) (end_x : Int) :
    Nat → Int → PrintState → Progress
  | 0, _, st => .running st
  | n + 1, x, st =>
    if x ≤ end_x then
      (print_pixel pixel_data row_size x st).and_then
        (print_row pixel_data row_size end_x n (x + 1))
    else .running st

/-- The outer loop `while (message_len) { x = start_x; <inner loop>; y--; }`
(lines 64-88); `fuel` bounds the number of passes, `none` means the bound was
reached. -/
def print_loop (pixel_data : Mem) (row_size : Nat) (start_x end_x : Int) :
    Nat → PrintState → Option Progress
  | fuel, st =>
    if st.message_len = 0 then some (.running st)
    else
      match fuel with
      | 0 => none
      | n + 1 =>
        match print_row pixel_data row_size end_x (end_x + 1 - start_x).toNat start_x st with
        | .running st1 =>
          print_loop pixel_data row_size start_x end_x n { st1 with y := st1.y - 1 }
        | .sigsegv st1 => some (.sigsegv st1)

/-- How a call of `print_message` of `main.c` ends: in the division by zero of
line 61, killed by `SIGSEGV` in a load, or by returning. -/
inductive Extraction where
  | div_by_zero
  | sigsegv (st : PrintState)
  | finished (st : PrintState)
  deriving DecidableEq, Repr

/-- The function `print_message` of `main.c` (lines 59-90): line 61 evaluates
`message_len / (end_x * 4 - start_x * 4)` before the loops; the quotient is
only printed. -/
def print_message (pixel_data : Mem) (fuel : Nat) (message_len y start_x end_x : Int)
    (row_size : Nat) : Option Extraction :=
  if end_x * 4 - start_x * 4 = 0 then some .div_by_zero
  else
    match print_loop pixel_data row_size start_x end_x fuel
        { message_len := message_len, y := y, out := [], reads := [] } with
    | none => none
    | some (.running st) => some (.finished st)
    | some (.sigsegv st) => some (.sigsegv st)

/-- The arguments of the call on line 141; `message_len` is an `int` here. -/
structure Call where
  message_len : Int
  y : Int
  start_x : Int
  end_x : Int
  row_size : Nat
  deriving DecidableEq, Repr

/-- What one pass of the scan (or the whole scan) of `main.c` leads to: the
loop goes on, the third branch is taken, or a load of lines 121-123 is from an
unmapped address. -/
inductive Outcome where
  | continue (st : Main3.ScanState)
  | resolved (st : Main3.ScanState) (y x : Nat) (c : Call)
  | sigsegv (st : Main3.ScanState)
  deriving DecidableEq, Repr

/-- The arguments of the call on line 141, made at pixel `(y, x)`:
`message_len = blue + red` (line 138, stored into a `u32`, passed as `int`),
then `y -= 2`, `found_header + 2` and `x`, each converted to `int`, and
`row_size`. -/
def call_args (img : Main3.Image) (y x found_header : Nat) : Call :=
  { message_len := to_i32 ((Main3.blue img y x + Main3.red img y x) % 4294967296)
    y := to_i32 ((y + 4294967296 - 2) % 4294967296)
    start_x := to_i32 ((found_header + 2) % 4294967296)
    end_x := to_i32 x
    row_size := Main3.row_size img.width img.bit_per_pixel }

/-- The body of the scan loops of `main.c` for one pixel (lines 114-147).  The
locals, the loads of lines 117-123 and the three conditions are those of
`main3.c`; `message_x` is never assigned, so lines 114-116 and 126-128 do
nothing. -/
def scan_pixel (img : Main3.Image) (y x : Nat) (st : Main3.ScanState) : Outcome :=
  let rs := Main3.row_size img.width img.bit_per_pixel
  let idx := Main3.scan_index y rs x
  if readable img.pixel_data ((idx + 0) % 4294967296) = false then
    .sigsegv { st with reads := st.reads ++ [(idx + 0) % 4294967296] }
  else if readable img.pixel_data ((idx + 1) % 4294967296) = false then
    .sigsegv { st with reads := st.reads ++ [(idx + 0) % 4294967296, (idx + 1) % 4294967296] }
  else if readable img.pixel_data ((idx + 2) % 4294967296) = false then
    .sigsegv
      { st with
        reads := st.reads ++
          [(idx + 0) % 4294967296, (idx + 1) % 4294967296, (idx + 2) % 4294967296] }
  else
    let b := Main3.blue img y x
    let g := Main3.green img y x
    let r := Main3.red img y x
    let st1 : Main3.ScanState :=
      { st with
        reads := st.reads ++
          [(idx + 0) % 4294967296, (idx + 1) % 4294967296, (idx + 2) % 4294967296]
        iters := st.iters + 1 }
    if b = 127 ∧ g = 188 ∧ r = 217 ∧ st1.found_header = 0 then
      .continue { st1 with found_header := x }
    else if b = 127 ∧ g = 188 ∧ r = 217 ∧ x > st1.found_header then
      .continue { st1 with header_line := 1 }
    else if ¬ (b = 127 ∧ g = 188 ∧ r ≠ 0) ∧ st1.header_line = 1 then
      .resolved st1 y x (call_args img y x st1.found_header)
    else .continue st1

/-- The inner loop `for (u32 x = 0; x < header->width; x++)` (line 113). -/
def scan_row (img : Main3.Image) (y : Nat) : Nat → Nat → Main3.ScanState → Outcome
  | 0, _, st => .continue st
  | n + 1, x, st =>
    match scan_pixel img y x st with
    | .continue st1 => scan_row img y n (x + 1) st1
    | .resolved st1 y1 x1 c => .resolved st1 y1 x1 c
    | .sigsegv st1 => .sigsegv st1

/-- The outer loop `for (u32 y = 0; y < header->height; y++)` (line 112). -/
def scan_rows (img : Main3.Image) : Nat → Nat → Main3.ScanState → Outcome
  | 0, _, st => .continue st
  | n + 1, y, st =>
    match scan_row img y img.width 0 st with
    | .continue st1 => scan_rows img n (y + 1) st1
    | .resolved st1 y1 x1 c => .resolved st1 y1 x1 c
    | .sigsegv st1 => .sigsegv st1

/-- The two nested scan loops of `main` of `main.c` (lines 112-149), from the
initial values of lines 108-111. -/
def scan (img : Main3.Image) : Outcome := scan_rows img img.height 0 Main3.scan_init

/-- How a run of `main` of `main.c` ends: by `return 0`, killed in the division
by zero of `print_message`, or killed by `SIGSEGV` in a load of the scan or of
`print_message`; in each case with the bytes passed to `write(1, ...)` so far
and the calls of `print_message` made. -/
inductive Exit where
  | returned (status : Nat) (out : List Nat) (calls : List Call)
  | div_by_zero (out : List Nat) (calls : List Call)
  | sigsegv (out : List Nat) (calls : List Call)
  deriving DecidableEq, Repr

/-- The bytes that a run has passed to `write(1, ...)`. -/
def Exit.out : Exit → List Nat
  | .returned _ out _ => out
  | .div_by_zero out _ => out
  | .sigsegv out _ => out

/-- The function `main` of `main.c` from line 108 on. -/
def main (fuel : Nat) (img : Main3.Image) : Option Exit :=
  match scan img with
  | .continue _ => some (.returned 0 [] [])
  | .resolved _ _ _ c =>
    match print_message img.pixel_data fuel c.message_len c.y c.start_x c.end_x c.row_size with
    | none => none
    | some .div_by_zero => some (.div_by_zero [] [c])
    | some (.sigsegv p) => some (.sigsegv p.out [c])
    | some (.finished p) => some (.returned 0 p.out [c])
  | .sigsegv _ => some (.sigsegv [] [])

end MainC

/-! ## Concrete images -/

/-- The four bytes of one stored pixel: blue, green, red, unused. -/
def px (b g r : Nat) : List Nat := [b, g, r, 0]

/-- A pixel of the marker colour. -/
def marker_px : List Nat := px 127 188 217

/-- A black pixel. -/
def zero_px : List Nat := px 0 0 0

/-- The image of the concrete scenario, rows numbered as the scan numbers them
(row `r` at byte offset `16 * r`): 4 by 4 pixels of 32 bits; markers at columns
0 and 1 of row 3; the pixel (3, 0, 2) at column 2 of row 2; the bytes
`0x41 .. 0x45` in columns 2 and 3 of row 1. -/
def scenario_image : Main3.Image :=
  { width := 4, height := 4, bit_per_pixel := 32
    pixel_data := mem_of
      (zero_px ++ zero_px ++ zero_px ++ zero_px ++
       zero_px ++ zero_px ++ px 65 66 67 ++ px 68 69 0 ++
       zero_px ++ zero_px ++ px 3 0 2 ++ zero_px ++
       marker_px ++ marker_px ++ zero_px ++ zero_px) }

/-- The image of the concrete scenario with row 3 stored first (row `r` at byte
offset `16 * (3 - r)`). -/
def scenario_image_bottom_up : Main3.Image :=
  { width := 4, height := 4, bit_per_pixel := 32
    pixel_data := mem_of
      (marker_px ++ marker_px ++ zero_px ++ zero_px ++
       zero_px ++ zero_px ++ px 3 0 2 ++ zero_px ++
       zero_px ++ zero_px ++ px 65 66 67 ++ px 68 69 0 ++
       zero_px ++ zero_px ++ zero_px ++ zero_px) }

/-- A 4 by 4 image on which the scan of `main3.c` resolves: markers at columns 1
and 2 of row 3, the pixel (3, 0, 2) right after them at column 3 of row 3, and
the bytes `0x41 0x42 0x43` in column 3 of row 1, `0x44 0x45` in column 3 of
row 0. -/
def resolving_image : Main3.Image :=
  { width := 4, height := 4, bit_per_pixel := 32
    pixel_data := mem_of
      (zero_px ++ zero_px ++ zero_px ++ px 68 69 0 ++
       zero_px ++ zero_px ++ zero_px ++ px 65 66 67 ++
       zero_px ++ zero_px ++ zero_px ++ zero_px ++
       zero_px ++ marker_px ++ marker_px ++ px 3 0 2) }

/-- A 4 by 2 image whose header line lies on row 1: markers at columns 1 and 2,
the pixel (3, 0, 2) at column 3. -/
def low_header_image : Main3.Image :=
  { width := 4, height := 2, bit_per_pixel := 32
    pixel_data := mem_of
      (zero_px ++ zero_px ++ zero_px ++ zero_px ++
       zero_px ++ marker_px ++ marker_px ++ px 3 0 2) }

/-- A 4 by 3 image whose length pixel is black: markers at columns 1 and 2 of
row 2, a black pixel at column 3. -/
def zero_length_image : Main3.Image :=
  { width := 4, height := 3, bit_per_pixel := 32
    pixel_data := mem_of
      (px 1 2 3 ++ px 4 5 6 ++ px 7 8 9 ++ px 10 11 12 ++
       px 1 2 3 ++ px 4 5 6 ++ px 7 8 9 ++ px 10 11 12 ++
       zero_px ++ marker_px ++ marker_px ++ zero_px) }

/-- A 3 by 2 image with a single marker pixel, at column 1 of row 0. -/
def one_marker_image : Main3.Image :=
  { width := 3, height := 2, bit_per_pixel := 32
    pixel_data := mem_of
      (zero_px ++ marker_px ++ px 9 9 9 ++
       px 1 2 3 ++ px 127 188 0 ++ zero_px) }

/-- Two rows of four pixels (row stride 16) holding the bytes `0x41 .. 0x48`
in extractor order for the window of columns 2 and 3 that starts on row 1:
six bytes on row 1, the last two on row 0. -/
def round_trip_mem : Mem :=
  mem_of
    (zero_px ++ zero_px ++ px 71 72 0 ++ zero_px ++
     zero_px ++ zero_px ++ px 65 66 67 ++ px 68 69 70)

/-- A 4 by 3 image whose first marker lies in column 0: markers at columns 0
and 1 of row 2, the pixel (3, 0, 2) at column 2. -/
def column_zero_image : Main3.Image :=
  { width := 4, height := 3, bit_per_pixel := 32
    pixel_data := mem_of
      (zero_px ++ zero_px ++ px 65 66 67 ++ zero_px ++
       zero_px ++ zero_px ++ zero_px ++ zero_px ++
       marker_px ++ marker_px ++ px 3 0 2 ++ zero_px) }

/-- A 5 by 3 image with a pixel that shares blue and green with the marker:
markers at columns 1 and 2 of row 2, the pixel (127, 188, 5) at column 3, the
pixel (3, 0, 2) at column 4. -/
def near_marker_image : Main3.Image :=
  { width := 5, height := 3, bit_per_pixel := 32
    pixel_data := mem_of
      (zero_px ++ zero_px ++ zero_px ++ zero_px ++ zero_px ++
       zero_px ++ zero_px ++ zero_px ++ zero_px ++ zero_px ++
       zero_px ++ marker_px ++ marker_px ++ px 127 188 5 ++ px 3 0 2) }

/-- A 4 by 1 image of 24 bits per pixel: its row stride is 12 bytes, and twelve
bytes of pixel data follow the header. -/
def narrow_pixel_image : Main3.Image :=
  { width := 4, height := 1, bit_per_pixel := 24
    pixel_data := mem_of [1, 2, 3, 4, 5, 6, 7, 8, 9, 10, 11, 12] }

/-- The 32 bytes of a batch of eight pixels whose first pixel has the marker
colour and whose other pixels are black, as `_mm256_loadu_si256` loads them. -/
def marker_batch : TestC.M256 :=
  (TestC.mm256_loadu_si256
    (mem_of (marker_px ++ zero_px ++ zero_px ++ zero_px ++ zero_px ++ zero_px ++ zero_px ++
      zero_px)) 0).getD (fun _ => 0)

/-- A 1 by 1 image of 32 bits per pixel whose four pixel bytes are the last
bytes of the file and of its last page. -/
def page_end_image : Main3.Image :=
  { width := 1, height := 1, bit_per_pixel := 32, pixel_data := mem_exact (px 1 2 3) }

/-! ## Auxiliary definitions for the statements about the scanners -/

namespace Main3

/-- The scalar marker test of the scan at pixel `(y, x)`:
`blue == 127 && green == 188 && red == 217`. -/
def is_marker (img : Image) (y x : Nat) : Prop :=
  blue img y x = 127 ∧ green img y x = 188 ∧ red img y x = 217

instance (img : Image) (y x : Nat) : Decidable (is_marker img y x) := by
  unfold is_marker; infer_instance

/-- The state in which the scan of `resolving_image` resolves: first marker
column 1, header closed, all 16 pixels read. -/
def resolving_state : ScanState :=
  { found_header := 1, header_line := 1
    reads := (List.range 16).flatMap (fun p => [4 * p, 4 * p + 1, 4 * p + 2])
    iters := 16 }

/-- The state in which the scan of `low_header_image` resolves: first marker
column 1, header closed, all 8 pixels read. -/
def low_header_state : ScanState :=
  { found_header := 1, header_line := 1
    reads := (List.range 8).flatMap (fun p => [4 * p, 4 * p + 1, 4 * p + 2])
    iters := 8 }

/-- The state in which the scan of `zero_length_image` resolves: first marker
column 1, header closed, all 12 pixels read. -/
def zero_length_state : ScanState :=
  { found_header := 1, header_line := 1
    reads := (List.range 12).flatMap (fun p => [4 * p, 4 * p + 1, 4 * p + 2])
    iters := 12 }

end Main3

namespace TestC

/-- The worker reports a match at pixel `(y, x)`: the condition of line 101,
`_mm256_movemask_epi8(combined_mask)`, is nonzero for the 32 bytes loaded
there. -/
def reports_match (pixel_data : Mem) (row_size y x : Nat) : Prop :=
  ∃ pixel_vec : M256,
    mm256_loadu_si256 pixel_data ((y * row_size + x * 4) % 4294967296) = some pixel_vec ∧
    mm256_movemask_epi8 (combined_mask pixel_vec) ≠ 0

/-- The 32-byte load of lines 76-78 at pixel `(y, x)` succeeds: all of the
offsets `pixel_index`, ..., `pixel_index + 31` are mapped. -/
def batch_readable (pixel_data : Mem) (row_size y x : Nat) : Bool :=
  (mm256_loadu_si256 pixel_data ((y * row_size + x * 4) % 4294967296)).isSome

/-- Row `y` lies in the range `[start_row, end_row)` of the worker with record
`a`. -/
def in_row_range (a : ThreadProcessArgs) (y : Nat) : Prop :=
  ∃ s e, start_row a = some s ∧ end_row a = some e ∧ s ≤ y ∧ y < e

/-- The value that lines 108-110 store into `message_len` at pixel `(y, x)`:
blue plus red of that same pixel, kept in a `u16`. -/
def same_pixel_len (pixel_data : Mem) (row_size y x : Nat) : Nat :=
  (load pixel_data ((y * row_size + x * 4) % 4294967296) +
    load pixel_data (((y * row_size + x * 4) % 4294967296 + 2) % 4294967296)) % 65536

end TestC

/-! ## Auxiliary definitions for the statements about `print_message` -/

namespace Main3

/-- The three offsets that `print_pixel` passes to its guarded emissions for
the pixel `(y, x)`, in order. -/
def pixel_offsets (y : Int) (row_size : Nat) (x : Int) : List Nat :=
  let idx := pixel_index y row_size x
  [(idx + 0) % 4294967296, (idx + 1) % 4294967296, (idx + 2) % 4294967296]

/-- The offsets of the `n` pixels `x`, `x + 1`, ... of row `y`, three per pixel,
in the order in which the inner loop reaches them. -/
def row_offsets (y : Int) (row_size : Nat) : Nat → Int → List Nat
  | 0, _ => []
  | n + 1, x => pixel_offsets y row_size x ++ row_offsets y row_size n (x + 1)

/-- The offsets of `r` rows `y`, `y - 1`, ..., each of `w` pixels from column
`start_x` on, in the order in which the two loops reach them. -/
def stream_offsets (row_size : Nat) (start_x : Int) (w : Nat) : Nat → Int → List Nat
  | 0, _ => []
  | r + 1, y => row_offsets y row_size w start_x ++ stream_offsets row_size start_x w r (y - 1)

/-- The bytes that `write(1, &pixel_data[o], 1)` puts out for the offsets `o`
of `offs`, in order: the byte at `o` where the address is mapped, nothing
where it is not. -/
def bytes_at (pixel_data : Mem) (offs : List Nat) : List Nat :=
  offs.filterMap (fun o => (pixel_data o).map (fun b => b % 256))

/-- The effect on a state of guarded emissions at the offsets `offs`, in order:
as many of them happen as `message_len` allows. -/
def consume (pixel_data : Mem) (offs : List Nat) (st : PrintState) : PrintState :=
  { message_len := st.message_len - offs.length
    y := st.y
    out := st.out ++ bytes_at pixel_data (offs.take st.message_len)
    reads := st.reads ++ offs.take st.message_len }

/-- The ceiling of `message_len / (3 * w)`: the number of rows of `w` pixels
that `message_len` bytes occupy. -/
def rows_needed (message_len w : Nat) : Nat := (message_len + 3 * w - 1) / (3 * w)

/-- Extractor order as the specification words it: byte number `i` of the
message lies in row `start_row - i / (3 * w)`, in column
`start_col + (i % (3 * w)) / 3`, in channel `i % 3` (0 blue, 1 green, 2 red),
where `w = end_col - start_col + 1`; its offset is
`row * row_stride + col * 4 + channel`. -/
def message_offset (row_stride start_row start_col end_col i : Nat) : Nat :=
  (start_row - i / (3 * (end_col - start_col + 1))) * row_stride +
    (start_col + i % (3 * (end_col - start_col + 1)) / 3) * 4 + i % 3

end Main3

/-! ## Auxiliary definitions for the statements about `main.c` and about the spinning extractor -/

namespace Main3

end Main3

namespace MainC

/-- The call of `main3.c` read as a call of `main.c`: the `unsigned short`
length becomes an `int`. -/
def lift_call (c : Main3.Call) : Call :=
  { message_len := (c.message_len : Int), y := c.y, start_x := c.start_x, end_x := c.end_x,
    row_size := c.row_size }

/-- The outcome of the scan of `main3.c` read as an outcome of the scan of
`main.c`. -/
def lift_outcome : Main3.Outcome → Outcome
  | .continue st => .continue st
  | .resolved st y x c => .resolved st y x (lift_call c)
  | .sigsegv st => .sigsegv st

end MainC

/-! # Theorems -/

/-! ## The loops of `print_message` as guarded emissions over an offset stream -/

namespace Main3

theorem bytes_at_nil (pd : Mem) : bytes_at pd [] = [] := rfl

theorem bytes_at_append (pd : Mem) (a b : List Nat) :
    bytes_at pd (a ++ b) = bytes_at pd a ++ bytes_at pd b := by
  simp [bytes_at, List.filterMap_append]

theorem bytes_at_length_le (pd : Mem) (offs : List Nat) :
    (bytes_at pd offs).length ≤ offs.length := by
  unfold bytes_at
  exact List.length_filterMap_le _ _

theorem bytes_at_of_readable (pd : Mem) (offs : List Nat)
    (h : ∀ o ∈ offs, readable pd o = true) : bytes_at pd offs = offs.map (load pd) := by
  induction offs with
  | nil => rfl
  | cons o t ih =>
    have ho := h o (List.mem_cons_self _ _)
    have ht := ih (fun o1 h1 => h o1 (List.mem_cons_of_mem _ h1))
    unfold bytes_at at ht ⊢
    unfold readable at ho
    cases hv : pd o with
    | none => rw [hv] at ho; simp at ho
    | some b =>
      rw [List.filterMap_cons, hv]
      simp only [Option.map_some', List.map_cons, load, hv]
      rw [ht]

theorem emit_eq_consume (pd : Mem) (off : Nat) (st : PrintState) :
    emit pd off st = consume pd [off] st := by
  unfold emit consume bytes_at
  by_cases h : st.message_len = 0
  · cases st; simp_all
  · obtain ⟨k, hk⟩ := Nat.exists_eq_succ_of_ne_zero h
    cases hv : pd off <;> simp [hk, hv]

theorem consume_consume (pd : Mem) (a b : List Nat) (st : PrintState) :
    consume pd b (consume pd a st) = consume pd (a ++ b) st := by
  simp only [consume, List.take_append_eq_append_take, bytes_at_append, List.append_assoc,
    List.length_append, Nat.sub_sub]

theorem print_pixel_eq_consume (pd : Mem) (rs : Nat) (x : Int) (st : PrintState) :
    print_pixel pd rs x st = consume pd (pixel_offsets st.y rs x) st := by
  simp only [print_pixel, emit_eq_consume, consume_consume, pixel_offsets]
  rfl

theorem consume_y (pd : Mem) (a : List Nat) (st : PrintState) : (consume pd a st).y = st.y := rfl

theorem print_row_eq_consume (pd : Mem) (rs : Nat) (end_x : Int) (n : Nat) :
    ∀ (x : Int) (st : PrintState), x + n ≤ end_x + 1 →
      print_row pd rs end_x n x st = consume pd (row_offsets st.y rs n x) st := by
  induction n with
  | zero => intro x st _; simp [print_row, row_offsets, consume, bytes_at]
  | succ n ih =>
    intro x st h
    have hx : x ≤ end_x := by push_cast at h; omega
    simp only [print_row, hx, if_true, row_offsets]
    rw [ih (x + 1) _ (by push_cast at h; omega), print_pixel_eq_consume, consume_consume, consume_y]

theorem length_row_offsets (y : Int) (rs : Nat) (n : Nat) :
    ∀ x : Int, (row_offsets y rs n x).length = 3 * n := by
  induction n with
  | zero => intro x; simp [row_offsets]
  | succ n ih => intro x; simp [row_offsets, ih, pixel_offsets]; omega

theorem length_stream_offsets (rs : Nat) (sx : Int) (w r : Nat) :
    ∀ y : Int, (stream_offsets rs sx w r y).length = 3 * w * r := by
  induction r with
  | zero => intro y; simp [stream_offsets]
  | succ r ih => intro y; simp [stream_offsets, ih, length_row_offsets]; ring

theorem rows_needed_zero (w : Nat) (hw : 1 ≤ w) : rows_needed 0 w = 0 := by
  unfold rows_needed
  apply Nat.div_eq_of_lt
  omega

theorem rows_needed_step (l w : Nat) (hw : 1 ≤ w) (hl : l ≠ 0) :
    rows_needed l w = rows_needed (l - 3 * w) w + 1 := by
  unfold rows_needed
  by_cases h : 3 * w ≤ l
  · have : l + 3 * w - 1 = (l - 3 * w + 3 * w - 1) + 3 * w := by omega
    rw [this, Nat.add_div_right _ (by omega)]
  · have h0 : l - 3 * w = 0 := by omega
    rw [h0]
    have h1 : (0 + 3 * w - 1) / (3 * w) = 0 := Nat.div_eq_of_lt (by omega)
    rw [h1]
    have : l + 3 * w - 1 = (l - 1) + 3 * w := by omega
    rw [this, Nat.add_div_right _ (by omega), Nat.div_eq_of_lt (by omega)]

theorem print_loop_eq (pd : Mem) (rs : Nat) (start_x end_x : Int) (w : Nat)
    (hw : (end_x + 1 - start_x).toNat = w) (hw1 : 1 ≤ w) (fuel : Nat) :
    ∀ st : PrintState, rows_needed st.message_len w ≤ fuel →
      print_loop pd rs start_x end_x fuel st =
        some { message_len := 0
               y := st.y - rows_needed st.message_len w
               out := st.out ++
                 bytes_at pd
                   ((stream_offsets rs start_x w (rows_needed st.message_len w) st.y).take
                     st.message_len)
               reads := st.reads ++
                 (stream_offsets rs start_x w (rows_needed st.message_len w) st.y).take
                   st.message_len } := by
  induction fuel with
  | zero =>
    intro st h
    by_cases h0 : st.message_len = 0
    · unfold print_loop
      cases st
      simp_all [rows_needed_zero, stream_offsets, bytes_at]
    · rw [rows_needed_step _ _ hw1 h0] at h; omega
  | succ n ih =>
    intro st h
    by_cases h0 : st.message_len = 0
    · unfold print_loop
      cases st
      simp_all [rows_needed_zero, stream_offsets, bytes_at]
    · unfold print_loop
      simp only [h0, if_false, hw]
      rw [print_row_eq_consume pd rs end_x w start_x st (by omega)]
      have hstep := rows_needed_step _ _ hw1 h0
      rw [ih _ (by simp only [consume, length_row_offsets]; omega)]
      simp only [consume, hstep, stream_offsets, List.take_append_eq_append_take,
        length_row_offsets, bytes_at_append, List.append_assoc]
      have hy : st.y - 1 - ((rows_needed (st.message_len - 3 * w) w : Nat) : Int) =
          st.y - ((rows_needed (st.message_len - 3 * w) w + 1 : Nat) : Int) := by
        push_cast; ring
      rw [hy]

theorem row_offsets_getElem_opt (y : Int) (rs : Nat) (n : Nat) :
    ∀ (x : Int) (i : Nat), i < 3 * n →
      (row_offsets y rs n x)[i]? =
        some ((pixel_index y rs (x + ((i / 3 : Nat) : Int)) + i % 3) % 4294967296) := by
  induction n with
  | zero => intro x i h; omega
  | succ n ih =>
    intro x i h
    simp only [row_offsets]
    by_cases h3 : i < 3
    · rw [List.getElem?_append_left (by simp [pixel_offsets]; omega)]
      have hd : i / 3 = 0 := by omega
      interval_cases i <;> simp [pixel_offsets]
    · rw [List.getElem?_append_right (by simp [pixel_offsets]; omega)]
      have hl : (pixel_offsets y rs x).length = 3 := by simp [pixel_offsets]
      rw [hl, ih (x + 1) (i - 3) (by omega)]
      have h1 : (i - 3) / 3 + 1 = i / 3 := by omega
      have h2 : (i - 3) % 3 = i % 3 := by omega
      have h3 : x + 1 + (((i - 3) / 3 : Nat) : Int) = x + ((i / 3 : Nat) : Int) := by
        rw [← h1]; push_cast; ring
      rw [h2, h3]

theorem stream_offsets_getElem_opt (rs : Nat) (sx : Int) (w : Nat) (hw : 1 ≤ w) (r : Nat) :
    ∀ (y : Int) (i : Nat), i < 3 * w * r →
      (stream_offsets rs sx w r y)[i]? =
        some ((pixel_index (y - ((i / (3 * w) : Nat) : Int)) rs
                (sx + ((i % (3 * w) / 3 : Nat) : Int)) + i % 3) % 4294967296) := by
  induction r with
  | zero => intro y i h; simp at h
  | succ r ih =>
    intro y i h
    simp only [stream_offsets]
    by_cases hi : i < 3 * w
    · rw [List.getElem?_append_left (by rw [length_row_offsets]; exact hi)]
      rw [row_offsets_getElem_opt y rs w sx i hi]
      rw [Nat.div_eq_of_lt hi, Nat.mod_eq_of_lt hi]
      simp
    · rw [List.getElem?_append_right (by rw [length_row_offsets]; omega)]
      rw [length_row_offsets, ih (y - 1) (i - 3 * w) (by
        have : 3 * w * (r + 1) = 3 * w * r + 3 * w := by ring
        omega)]
      have hc : 0 < 3 * w := by omega
      have h1 : i / (3 * w) = (i - 3 * w) / (3 * w) + 1 := by
        have : i = (i - 3 * w) + 3 * w := by omega
        conv_lhs => rw [this]
        rw [Nat.add_div_right _ hc]
      have h2 : (i - 3 * w) % (3 * w) = i % (3 * w) := by
        have : i = (i - 3 * w) + 3 * w := by omega
        conv_rhs => rw [this]
        rw [Nat.add_mod_right]
      have h3 : (i - 3 * w) % 3 = i % 3 := by omega
      have h4 : y - 1 - (((i - 3 * w) / (3 * w) : Nat) : Int) = y - ((i / (3 * w) : Nat) : Int) := by
        rw [h1]; push_cast; ring
      rw [h2, h3, h4]

theorem le_mul_rows_needed (l w : Nat) (hw : 1 ≤ w) : l ≤ 3 * w * rows_needed l w := by
  unfold rows_needed
  have h := Nat.lt_mul_div_succ (l + 3 * w - 1) (show 0 < 3 * w by omega)
  rw [Nat.mul_add, Nat.mul_one] at h
  omega

theorem rows_needed_le (l w s : Nat) (hw : 1 ≤ w) (h : l ≤ 3 * w * s) : rows_needed l w ≤ s := by
  unfold rows_needed
  have hc : 0 < 3 * w := by omega
  have h2 : l + 3 * w - 1 < (s + 1) * (3 * w) := by
    have : (s + 1) * (3 * w) = 3 * w * s + 3 * w := by ring
    omega
  have := (Nat.div_lt_iff_lt_mul hc).2 h2
  omega

theorem print_loop_none (pd : Mem) (rs : Nat) (start_x end_x : Int) (w : Nat)
    (hw : (end_x + 1 - start_x).toNat = w) (hw1 : 1 ≤ w) (fuel : Nat) :
    ∀ st : PrintState, fuel < rows_needed st.message_len w →
      print_loop pd rs start_x end_x fuel st = none := by
  induction fuel with
  | zero =>
    intro st h
    have h0 : st.message_len ≠ 0 := by
      intro h0; rw [h0, rows_needed_zero w hw1] at h; omega
    unfold print_loop
    simp [h0]
  | succ n ih =>
    intro st h
    have h0 : st.message_len ≠ 0 := by
      intro h0; rw [h0, rows_needed_zero w hw1] at h; omega
    unfold print_loop
    simp only [h0, if_false, hw]
    rw [print_row_eq_consume pd rs end_x w start_x st (by omega)]
    have hstep := rows_needed_step _ _ hw1 h0
    exact ih _ (by simp only [consume, length_row_offsets]; omega)

theorem print_message_eq (pd : Mem) (fuel l : Nat) (y start_x end_x : Int) (rs : Nat)
    (hl : l < 65536) (hcol : start_x ≤ end_x)
    (hfuel : rows_needed l (end_x + 1 - start_x).toNat ≤ fuel) :
    print_message pd fuel l y start_x end_x rs =
      some { message_len := 0
             y := y - rows_needed l (end_x + 1 - start_x).toNat
             out := bytes_at pd
                      ((stream_offsets rs start_x (end_x + 1 - start_x).toNat
                        (rows_needed l (end_x + 1 - start_x).toNat) y).take l)
             reads := (stream_offsets rs start_x (end_x + 1 - start_x).toNat
                      (rows_needed l (end_x + 1 - start_x).toNat) y).take l } := by
  unfold print_message
  rw [Nat.mod_eq_of_lt hl]
  rw [print_loop_eq pd rs start_x end_x _ rfl (by omega) fuel _ hfuel]
  simp

/-! ## The scan loops of `main`: what a resolution carries, and an induction principle -/

theorem load_lt (pd : Mem) (i : Nat) : load pd i < 256 := by
  unfold load
  cases pd i with
  | none => decide
  | some b => exact Nat.mod_lt _ (by decide)

theorem pixel_readable_eq_true {img : Image} {y x : Nat}
    (h0 : ¬ readable img.pixel_data
      ((scan_index y (row_size img.width img.bit_per_pixel) x + 0) % 4294967296) = false)
    (h1 : ¬ readable img.pixel_data
      ((scan_index y (row_size img.width img.bit_per_pixel) x + 1) % 4294967296) = false)
    (h2 : ¬ readable img.pixel_data
      ((scan_index y (row_size img.width img.bit_per_pixel) x + 2) % 4294967296) = false) :
    pixel_readable img y x = true := by
  unfold pixel_readable
  simp only [Bool.not_eq_false] at h0 h1 h2
  rw [h0, h1, h2]
  rfl

theorem pixel_readable_split {img : Image} {y x : Nat} (h : pixel_readable img y x = true) :
    readable img.pixel_data
        ((scan_index y (row_size img.width img.bit_per_pixel) x + 0) % 4294967296) = true ∧
      readable img.pixel_data
        ((scan_index y (row_size img.width img.bit_per_pixel) x + 1) % 4294967296) = true ∧
      readable img.pixel_data
        ((scan_index y (row_size img.width img.bit_per_pixel) x + 2) % 4294967296) = true := by
  unfold pixel_readable at h
  simp only [Bool.and_eq_true] at h
  exact ⟨h.1.1, h.1.2, h.2⟩

theorem scan_pixel_resolved {img : Image} {y x : Nat} {st st1 : ScanState} {y1 x1 : Nat}
    {c : Call} (h : scan_pixel img y x st = .resolved st1 y1 x1 c) :
    y1 = y ∧ x1 = x ∧ c = call_args img y x st1.found_header ∧
      st1.found_header = st.found_header ∧ st.header_line = 1 ∧
      ¬ (blue img y x = 127 ∧ green img y x = 188 ∧ red img y x ≠ 0) := by
  unfold scan_pixel at h
  simp only at h
  split_ifs at h with r0 r1 r2 h1 h2 h3
  simp only [Outcome.resolved.injEq] at h
  obtain ⟨hst, hy, hx, hc⟩ := h
  subst hst hy hx hc
  exact ⟨rfl, rfl, rfl, rfl, h3.2, h3.1⟩

theorem readable_of_load_ne_zero {pd : Mem} {i : Nat} (h : load pd i ≠ 0) :
    readable pd i = true := by
  unfold load at h
  unfold readable
  cases hv : pd i with
  | none => rw [hv] at h; exact absurd rfl h
  | some b => rfl

theorem pixel_readable_of_channels {img : Image} {y x : Nat} (hb : blue img y x ≠ 0)
    (hg : green img y x ≠ 0) (hr : red img y x ≠ 0) : pixel_readable img y x = true := by
  unfold pixel_readable
  unfold blue at hb
  unfold green at hg
  unfold red at hr
  rw [readable_of_load_ne_zero hb, readable_of_load_ne_zero hg, readable_of_load_ne_zero hr]
  rfl

theorem scan_pixel_of_readable {img : Image} {y x : Nat} (st : ScanState)
    (h : pixel_readable img y x = true) :
    scan_pixel img y x st =
      if blue img y x = 127 ∧ green img y x = 188 ∧ red img y x = 217 ∧ st.found_header = 0 then
        .continue
          { found_header := x, header_line := st.header_line
            reads := st.reads ++
              [(scan_index y (row_size img.width img.bit_per_pixel) x + 0) % 4294967296,
               (scan_index y (row_size img.width img.bit_per_pixel) x + 1) % 4294967296,
               (scan_index y (row_size img.width img.bit_per_pixel) x + 2) % 4294967296]
            iters := st.iters + 1 }
      else if blue img y x = 127 ∧ green img y x = 188 ∧ red img y x = 217 ∧
          x > st.found_header then
        .continue
          { found_header := st.found_header, header_line := 1
            reads := st.reads ++
              [(scan_index y (row_size img.width img.bit_per_pixel) x + 0) % 4294967296,
               (scan_index y (row_size img.width img.bit_per_pixel) x + 1) % 4294967296,
               (scan_index y (row_size img.width img.bit_per_pixel) x + 2) % 4294967296]
            iters := st.iters + 1 }
      else if ¬ (blue img y x = 127 ∧ green img y x = 188 ∧ red img y x ≠ 0) ∧
          st.header_line = 1 then
        .resolved
          { found_header := st.found_header, header_line := st.header_line
            reads := st.reads ++
              [(scan_index y (row_size img.width img.bit_per_pixel) x + 0) % 4294967296,
               (scan_index y (row_size img.width img.bit_per_pixel) x + 1) % 4294967296,
               (scan_index y (row_size img.width img.bit_per_pixel) x + 2) % 4294967296]
            iters := st.iters + 1 }
          y x (call_args img y x st.found_header)
      else
        .continue
          { found_header := st.found_header, header_line := st.header_line
            reads := st.reads ++
              [(scan_index y (row_size img.width img.bit_per_pixel) x + 0) % 4294967296,
               (scan_index y (row_size img.width img.bit_per_pixel) x + 1) % 4294967296,
               (scan_index y (row_size img.width img.bit_per_pixel) x + 2) % 4294967296]
            iters := st.iters + 1 } := by
  obtain ⟨r0, r1, r2⟩ := pixel_readable_split h
  unfold scan_pixel
  simp only [r0, r1, r2, Bool.true_eq_false, if_false]

theorem scan_pixel_readable_of_resolved {img : Image} {y x : Nat} {st st1 : ScanState}
    {y1 x1 : Nat} {c : Call} (h : scan_pixel img y x st = .resolved st1 y1 x1 c) :
    pixel_readable img y x = true := by
  unfold scan_pixel at h
  simp only at h
  split_ifs at h with r0 r1 r2 h1 h2 h3
  exact pixel_readable_eq_true r0 r1 r2

theorem scan_pixel_readable_of_continue {img : Image} {y x : Nat} {st st1 : ScanState}
    (h : scan_pixel img y x st = .continue st1) : pixel_readable img y x = true := by
  unfold scan_pixel at h
  simp only at h
  split_ifs at h with r0 r1 r2 h1 h2 h3 <;> exact pixel_readable_eq_true r0 r1 r2

theorem scan_pixel_sigsegv {img : Image} {y x : Nat} {st st1 : ScanState}
    (h : scan_pixel img y x st = .sigsegv st1) :
    pixel_readable img y x = false ∧ st1.found_header = st.found_header ∧
      st1.header_line = st.header_line ∧ st1.iters = st.iters ∧
      ∃ k < 3, st1.reads = st.reads ++ (List.range (k + 1)).map (fun j =>
        (scan_index y (row_size img.width img.bit_per_pixel) x + j) % 4294967296) ∧
        readable img.pixel_data
          ((scan_index y (row_size img.width img.bit_per_pixel) x + k) % 4294967296) = false := by
  unfold scan_pixel at h
  simp only at h
  split_ifs at h with r0 r1 r2 h1 h2 h3
  · simp only [Outcome.sigsegv.injEq] at h
    subst h
    refine ⟨?_, rfl, rfl, rfl, 0, by decide, rfl, r0⟩
    unfold pixel_readable; rw [r0]; rfl
  · simp only [Outcome.sigsegv.injEq] at h
    subst h
    refine ⟨?_, rfl, rfl, rfl, 1, by decide, rfl, r1⟩
    unfold pixel_readable; rw [r1]; simp
  · simp only [Outcome.sigsegv.injEq] at h
    subst h
    refine ⟨?_, rfl, rfl, rfl, 2, by decide, rfl, r2⟩
    unfold pixel_readable; rw [r2]; simp

theorem scan_pixel_of_not_readable {img : Image} {y x : Nat} (st : ScanState)
    (h : pixel_readable img y x = false) : ∃ st1, scan_pixel img y x st = .sigsegv st1 := by
  cases hp : scan_pixel img y x st with
  | «continue» st1 => rw [scan_pixel_readable_of_continue hp] at h; cases h
  | resolved st1 y1 x1 c => rw [scan_pixel_readable_of_resolved hp] at h; cases h
  | sigsegv st1 => exact ⟨st1, rfl⟩

theorem scan_row_resolved {img : Image} {y : Nat} {st1 : ScanState} {y1 x1 : Nat} {c : Call}
    (n : Nat) : ∀ (x : Nat) (st : ScanState), scan_row img y n x st = .resolved st1 y1 x1 c →
      y1 = y ∧ x ≤ x1 ∧ x1 < x + n ∧ c = call_args img y1 x1 st1.found_header := by
  induction n with
  | zero => intro x st h; simp [scan_row] at h
  | succ n ih =>
    intro x st h
    simp only [scan_row] at h
    cases hp : scan_pixel img y x st with
    | «continue» st2 =>
      rw [hp] at h
      obtain ⟨a, b, c, d⟩ := ih (x + 1) st2 h
      exact ⟨a, by omega, by omega, d⟩
    | resolved st2 y2 x2 c2 =>
      rw [hp] at h
      simp only [Outcome.resolved.injEq] at h
      obtain ⟨hst, hy, hx, hc⟩ := h
      subst hst hy hx hc
      obtain ⟨a, b, c, d, e, f⟩ := scan_pixel_resolved hp
      subst a b
      exact ⟨rfl, le_refl _, by omega, c⟩
    | sigsegv st2 => rw [hp] at h; simp at h

theorem scan_rows_resolved {img : Image} {st1 : ScanState} {y1 x1 : Nat} {c : Call}
    (n : Nat) : ∀ (y : Nat) (st : ScanState), scan_rows img n y st = .resolved st1 y1 x1 c →
      y ≤ y1 ∧ y1 < y + n ∧ x1 < img.width ∧ c = call_args img y1 x1 st1.found_header := by
  induction n with
  | zero => intro y st h; simp [scan_rows] at h
  | succ n ih =>
    intro y st h
    simp only [scan_rows] at h
    cases hp : scan_row img y img.width 0 st with
    | «continue» st2 =>
      rw [hp] at h
      obtain ⟨a, b, c, d⟩ := ih (y + 1) st2 h
      exact ⟨by omega, by omega, c, d⟩
    | resolved st2 y2 x2 c2 =>
      rw [hp] at h
      simp only [Outcome.resolved.injEq] at h
      obtain ⟨hst, hy, hx, hc⟩ := h
      subst hst hy hx hc
      obtain ⟨a, b, c, d⟩ := scan_row_resolved _ _ _ hp
      subst a
      exact ⟨le_refl _, by omega, by omega, d⟩
    | sigsegv st2 => rw [hp] at h; simp at h

theorem scan_resolved {img : Image} {st : ScanState} {y x : Nat} {c : Call}
    (h : scan img = .resolved st y x c) :
    y < img.height ∧ x < img.width ∧ c = call_args img y x st.found_header := by
  obtain ⟨_, b, c, d⟩ := scan_rows_resolved _ _ _ h
  exact ⟨by omega, c, d⟩

theorem to_i32_sub_two (y : Nat) (hy : y < 2147483650) :
    to_i32 ((y + 4294967296 - 2) % 4294967296) = (y : Int) - 2 := by
  unfold to_i32
  split_ifs <;> omega

theorem to_i32_of_lt (n : Nat) (hn : n < 2147483648) : to_i32 n = (n : Int) := by
  unfold to_i32
  split_ifs <;> omega

theorem to_i32_add_two (n : Nat) (hn : n + 2 < 2147483648) :
    to_i32 ((n + 2) % 4294967296) = (n : Int) + 2 := by
  unfold to_i32
  split_ifs <;> omega

theorem scan_row_induction (img : Image) (y : Nat) (I : Nat → ScanState → Prop)
    (R : ScanState → Nat → Nat → Call → Prop) (S : ScanState → Prop)
    (hpix : ∀ (x : Nat) (st : ScanState), x < img.width → I x st →
      (∀ st1, scan_pixel img y x st = .continue st1 → I (x + 1) st1) ∧
      (∀ st1 y1 x1 c, scan_pixel img y x st = .resolved st1 y1 x1 c → R st1 y1 x1 c) ∧
      (∀ st1, scan_pixel img y x st = .sigsegv st1 → S st1))
    (n : Nat) : ∀ (x : Nat) (st : ScanState), x + n = img.width → I x st →
      (∀ st1, scan_row img y n x st = .continue st1 → I img.width st1) ∧
      (∀ st1 y1 x1 c, scan_row img y n x st = .resolved st1 y1 x1 c → R st1 y1 x1 c) ∧
      (∀ st1, scan_row img y n x st = .sigsegv st1 → S st1) := by
  induction n with
  | zero =>
    intro x st hx hI
    simp only [scan_row]
    refine ⟨?_, ?_, ?_⟩
    · intro st1 h
      simp only [Outcome.continue.injEq] at h
      subst h
      have : x = img.width := by omega
      rw [← this]; exact hI
    · intro st1 y1 x1 c h; simp at h
    · intro st1 h; simp at h
  | succ n ih =>
    intro x st hx hI
    obtain ⟨hc, hr, hs⟩ := hpix x st (by omega) hI
    simp only [scan_row]
    cases hp : scan_pixel img y x st with
    | «continue» st2 => exact ih (x + 1) st2 (by omega) (hc st2 hp)
    | resolved st2 y2 x2 c2 =>
      refine ⟨?_, ?_, ?_⟩
      · intro st1 h; simp at h
      · intro st1 y1 x1 c h
        simp only [Outcome.resolved.injEq] at h
        obtain ⟨a, b, c, d⟩ := h
        subst a b c d
        exact hr _ _ _ _ hp
      · intro st1 h; simp at h
    | sigsegv st2 =>
      refine ⟨?_, ?_, ?_⟩
      · intro st1 h; simp at h
      · intro st1 y1 x1 c h; simp at h
      · intro st1 h
        simp only [Outcome.sigsegv.injEq] at h
        subst h
        exact hs _ hp

theorem scan_rows_induction (img : Image) (I : Nat → Nat → ScanState → Prop)
    (R : ScanState → Nat → Nat → Call → Prop) (S : ScanState → Prop)
    (hpix : ∀ (y x : Nat) (st : ScanState), y < img.height → x < img.width → I y x st →
      (∀ st1, scan_pixel img y x st = .continue st1 → I y (x + 1) st1) ∧
      (∀ st1 y1 x1 c, scan_pixel img y x st = .resolved st1 y1 x1 c → R st1 y1 x1 c) ∧
      (∀ st1, scan_pixel img y x st = .sigsegv st1 → S st1))
    (hrow : ∀ (y : Nat) (st : ScanState), y < img.height → I y img.width st → I (y + 1) 0 st)
    (n : Nat) : ∀ (y : Nat) (st : ScanState), y + n = img.height → I y 0 st →
      (∀ st1, scan_rows img n y st = .continue st1 → I img.height 0 st1) ∧
      (∀ st1 y1 x1 c, scan_rows img n y st = .resolved st1 y1 x1 c → R st1 y1 x1 c) ∧
      (∀ st1, scan_rows img n y st = .sigsegv st1 → S st1) := by
  induction n with
  | zero =>
    intro y st hy hI
    simp only [scan_rows]
    refine ⟨?_, ?_, ?_⟩
    · intro st1 h
      simp only [Outcome.continue.injEq] at h
      subst h
      have : y = img.height := by omega
      rw [← this]; exact hI
    · intro st1 y1 x1 c h; simp at h
    · intro st1 h; simp at h
  | succ n ih =>
    intro y st hy hI
    obtain ⟨hc, hr, hs⟩ := scan_row_induction img y (I y) R S
      (fun x st hx hI => hpix y x st (by omega) hx hI) img.width 0 st (by omega) hI
    simp only [scan_rows]
    cases hp : scan_row img y img.width 0 st with
    | «continue» st2 =>
      exact ih (y + 1) st2 (by omega) (hrow y st2 (by omega) (hc st2 hp))
    | resolved st2 y2 x2 c2 =>
      refine ⟨?_, ?_, ?_⟩
      · intro st1 h; simp at h
      · intro st1 y1 x1 c h
        simp only [Outcome.resolved.injEq] at h
        obtain ⟨a, b, c, d⟩ := h
        subst a b c d
        exact hr _ _ _ _ hp
      · intro st1 h; simp at h
    | sigsegv st2 =>
      refine ⟨?_, ?_, ?_⟩
      · intro st1 h; simp at h
      · intro st1 y1 x1 c h; simp at h
      · intro st1 h
        simp only [Outcome.sigsegv.injEq] at h
        subst h
        exact hs _ hp

theorem scan_induction (img : Image) (I : Nat → Nat → ScanState → Prop)
    (R : ScanState → Nat → Nat → Call → Prop) (S : ScanState → Prop)
    (hpix : ∀ (y x : Nat) (st : ScanState), y < img.height → x < img.width → I y x st →
      (∀ st1, scan_pixel img y x st = .continue st1 → I y (x + 1) st1) ∧
      (∀ st1 y1 x1 c, scan_pixel img y x st = .resolved st1 y1 x1 c → R st1 y1 x1 c) ∧
      (∀ st1, scan_pixel img y x st = .sigsegv st1 → S st1))
    (hrow : ∀ (y : Nat) (st : ScanState), y < img.height → I y img.width st → I (y + 1) 0 st)
    (h0 : I 0 0 scan_init) :
    (∀ st1, scan img = .continue st1 → I img.height 0 st1) ∧
    (∀ st1 y1 x1 c, scan img = .resolved st1 y1 x1 c → R st1 y1 x1 c) ∧
    (∀ st1, scan img = .sigsegv st1 → S st1) :=
  scan_rows_induction img I R S hpix hrow img.height 0 scan_init (by omega) h0

theorem scan_pixel_continue {img : Image} {y x : Nat} {st st1 : ScanState}
    (h : scan_pixel img y x st = .continue st1) :
    st1.iters = st.iters + 1 ∧
    st1.reads = st.reads ++ [(scan_index y (row_size img.width img.bit_per_pixel) x + 0) % 4294967296,
      (scan_index y (row_size img.width img.bit_per_pixel) x + 1) % 4294967296,
      (scan_index y (row_size img.width img.bit_per_pixel) x + 2) % 4294967296] ∧
    ((st1.found_header = x ∧ st1.header_line = st.header_line ∧ st.found_header = 0 ∧
        blue img y x = 127 ∧ green img y x = 188 ∧ red img y x = 217) ∨
     (st1.found_header = st.found_header ∧ st1.header_line = 1 ∧ st.found_header ≠ 0 ∧
        st.found_header < x ∧ blue img y x = 127 ∧ green img y x = 188 ∧ red img y x = 217) ∨
     (st1.found_header = st.found_header ∧ st1.header_line = st.header_line)) := by
  unfold scan_pixel at h
  simp only at h
  split_ifs at h with r0 r1 r2 h1 h2 h3
  · simp only [Outcome.continue.injEq] at h
    subst h
    exact ⟨rfl, rfl, Or.inl ⟨rfl, rfl, h1.2.2.2, h1.1, h1.2.1, h1.2.2.1⟩⟩
  · simp only [Outcome.continue.injEq] at h
    subst h
    refine ⟨rfl, rfl, Or.inr (Or.inl ⟨rfl, rfl, ?_, h2.2.2.2, h2.1, h2.2.1, h2.2.2.1⟩)⟩
    intro h0
    exact h1 ⟨h2.1, h2.2.1, h2.2.2.1, h0⟩
  · simp only [Outcome.continue.injEq] at h
    subst h
    exact ⟨rfl, rfl, Or.inr (Or.inr ⟨rfl, rfl⟩)⟩

theorem scan_found_header_lt (img : Image) :
    (∀ st1, scan img = .continue st1 → st1.found_header < img.width ∨ st1.found_header = 0) ∧
    (∀ st1 y1 x1 c, scan img = .resolved st1 y1 x1 c →
      st1.found_header < img.width ∨ st1.found_header = 0) := by
  obtain ⟨hc, hr, _⟩ := scan_induction img
    (fun _ _ st => st.found_header < img.width ∨ st.found_header = 0)
    (fun st _ _ _ => st.found_header < img.width ∨ st.found_header = 0) (fun _ => True)
    (by
      intro y x st hy hx hI
      refine ⟨?_, ?_, fun _ _ => trivial⟩
      · intro st1 h
        obtain ⟨_, _, h3⟩ := scan_pixel_continue h
        rcases h3 with h3 | h3 | h3
        · left; omega
        · rw [h3.1]; exact hI
        · rw [h3.1]; exact hI
      · intro st1 y1 x1 c h
        obtain ⟨_, _, _, h4, _⟩ := scan_pixel_resolved h
        rw [h4]; exact hI)
    (fun y st _ h => h) (Or.inr rfl)
  exact ⟨hc, hr⟩

theorem print_message_zero (pd : Mem) (fuel : Nat) (y sx ex : Int) (rs : Nat) :
    print_message pd fuel 0 y sx ex rs =
      some { message_len := 0, y := y, out := [], reads := [] } := by
  unfold print_message print_loop
  simp

theorem scan_rows_width_zero (img : Image) (hw : img.width = 0) (n : Nat) :
    ∀ (y : Nat) (st : ScanState), scan_rows img n y st = .continue st := by
  induction n with
  | zero => intro y st; rfl
  | succ n ih =>
    intro y st
    simp only [scan_rows, hw, scan_row]
    exact ih (y + 1) st

theorem print_row_empty (pd : Mem) (rs : Nat) (start_x end_x : Int) (h : end_x < start_x)
    (st : PrintState) :
    print_row pd rs end_x (end_x + 1 - start_x).toNat start_x st = st := by
  have : (end_x + 1 - start_x).toNat = 0 := by omega
  rw [this]
  rfl

theorem print_loop_spins (pd : Mem) (rs : Nat) (start_x end_x : Int) (h : end_x < start_x)
    (fuel : Nat) : ∀ st : PrintState, st.message_len ≠ 0 →
      print_loop pd rs start_x end_x fuel st = none := by
  induction fuel with
  | zero => intro st h0; unfold print_loop; simp [h0]
  | succ n ih =>
    intro st h0
    unfold print_loop
    simp only [h0, if_false]
    rw [print_row_empty pd rs start_x end_x h]
    exact ih _ h0

theorem print_message_spins (pd : Mem) (fuel l : Nat) (y start_x end_x : Int) (rs : Nat)
    (hpos : 0 < l) (hl : l < 65536) (h : end_x < start_x) :
    print_message pd fuel l y start_x end_x rs = none := by
  unfold print_message
  rw [Nat.mod_eq_of_lt hl]
  exact print_loop_spins pd rs start_x end_x h fuel _ (by simp only; omega)

theorem scan_readable_of_resolved {img : Image} {st : ScanState} {y x : Nat} {c : Call}
    (h : scan img = .resolved st y x c) : pixel_readable img y x = true := by
  obtain ⟨_, hr, _⟩ := scan_induction img (fun _ _ _ => True)
    (fun _ y1 x1 _ => pixel_readable img y1 x1 = true) (fun _ => True)
    (by
      intro y0 x0 st0 _ _ _
      refine ⟨fun _ _ => trivial, ?_, fun _ _ => trivial⟩
      intro st1 y1 x1 c1 h1
      obtain ⟨e1, e2, _⟩ := scan_pixel_resolved h1
      rw [e1, e2]
      exact scan_pixel_readable_of_resolved h1)
    (fun _ _ _ _ => trivial) trivial
  exact hr _ _ _ _ h

end Main3

/-! ## The worker of `test.c`: where a stored `message_len` comes from -/

namespace TestC

theorem detect_pixel_continue {a a1 : ThreadProcessArgs} {y x : Nat}
    (h : detect_pixel a y x = .continue a1) :
    a1.pixel_data = a.pixel_data ∧ a1.width = a.width ∧ a1.row_size = a.row_size ∧
      a1.message_len = a.message_len := by
  unfold detect_pixel at h
  simp only at h
  cases hv : mm256_loadu_si256 a.pixel_data ((y * a.row_size + x * 4) % 4294967296) with
  | none => rw [hv] at h; simp at h
  | some v =>
    rw [hv] at h
    simp only at h
    split_ifs at h <;> simp only [Step.continue.injEq] at h <;> subst h <;>
      exact ⟨rfl, rfl, rfl, rfl⟩

theorem detect_pixel_sigsegv {a a1 : ThreadProcessArgs} {y x : Nat}
    (h : detect_pixel a y x = .sigsegv a1) : a1 = a := by
  unfold detect_pixel at h
  simp only at h
  cases hv : mm256_loadu_si256 a.pixel_data ((y * a.row_size + x * 4) % 4294967296) with
  | none => rw [hv] at h; simp only [Step.sigsegv.injEq] at h; exact h.symm
  | some v =>
    rw [hv] at h
    simp only at h
    split_ifs at h
    simp only [Step.sigsegv.injEq] at h
    exact h.symm

theorem detect_pixel_returned {a a1 : ThreadProcessArgs} {y x : Nat}
    (h : detect_pixel a y x = .returned a1) :
    reports_match a.pixel_data a.row_size y x ∧ a.found_header ≠ 0 ∧ a.found_header < x ∧
      a1.message_len = same_pixel_len a.pixel_data a.row_size y x := by
  unfold detect_pixel at h
  simp only at h
  cases hv : mm256_loadu_si256 a.pixel_data ((y * a.row_size + x * 4) % 4294967296) with
  | none => rw [hv] at h; simp at h
  | some v =>
    rw [hv] at h
    simp only at h
    split_ifs at h with h1 h2 h3 h4
    simp only [Step.returned.injEq] at h
    subst h
    exact ⟨⟨v, hv, h1⟩, h2, h3, rfl⟩

theorem detect_row_spec (y : Nat) (n : Nat) :
    ∀ (x : Nat) (a : ThreadProcessArgs),
      (∀ a1, detect_row y n x a = .continue a1 ∨ detect_row y n x a = .sigsegv a1 →
        a1.pixel_data = a.pixel_data ∧ a1.width = a.width ∧ a1.row_size = a.row_size ∧
          a1.message_len = a.message_len) ∧
      (∀ a1, detect_row y n x a = .returned a1 →
        ∃ x1, x ≤ x1 ∧ x1 < x + n ∧ reports_match a.pixel_data a.row_size y x1 ∧
          a1.message_len = same_pixel_len a.pixel_data a.row_size y x1) := by
  induction n with
  | zero =>
    intro x a
    simp only [detect_row]
    constructor
    · intro a1 h
      rcases h with h | h
      · simp only [Step.continue.injEq] at h
        subst h
        exact ⟨rfl, rfl, rfl, rfl⟩
      · simp at h
    · intro a1 h; simp at h
  | succ n ih =>
    intro x a
    simp only [detect_row]
    cases hp : detect_pixel a y x with
    | «continue» a2 =>
      obtain ⟨e1, e2, e3, e4⟩ := detect_pixel_continue hp
      obtain ⟨ihc, ihr⟩ := ih (x + 1) a2
      constructor
      · intro a1 h
        obtain ⟨f1, f2, f3, f4⟩ := ihc a1 h
        exact ⟨f1.trans e1, f2.trans e2, f3.trans e3, f4.trans e4⟩
      · intro a1 h
        obtain ⟨x1, g1, g2, g3, g4⟩ := ihr a1 h
        rw [e1, e3] at g3 g4
        exact ⟨x1, by omega, by omega, g3, g4⟩
    | returned a2 =>
      obtain ⟨r1, _, _, r4⟩ := detect_pixel_returned hp
      constructor
      · intro a1 h; simp at h
      · intro a1 h
        simp only [Step.returned.injEq] at h
        subst h
        exact ⟨x, le_refl _, by omega, r1, r4⟩
    | sigsegv a2 =>
      have e := detect_pixel_sigsegv hp
      subst e
      constructor
      · intro a1 h
        rcases h with h | h
        · simp at h
        · simp only [Step.sigsegv.injEq] at h
          subst h
          exact ⟨rfl, rfl, rfl, rfl⟩
      · intro a1 h; simp at h

theorem detect_rows_spec (n : Nat) :
    ∀ (y : Nat) (a : ThreadProcessArgs),
      (∀ a1, detect_rows n y a = .continue a1 ∨ detect_rows n y a = .sigsegv a1 →
        a1.pixel_data = a.pixel_data ∧ a1.width = a.width ∧ a1.row_size = a.row_size ∧
          a1.message_len = a.message_len) ∧
      (∀ a1, detect_rows n y a = .returned a1 →
        ∃ y1 x1, y ≤ y1 ∧ y1 < y + n ∧ x1 < a.width ∧
          reports_match a.pixel_data a.row_size y1 x1 ∧
          a1.message_len = same_pixel_len a.pixel_data a.row_size y1 x1) := by
  induction n with
  | zero =>
    intro y a
    simp only [detect_rows]
    constructor
    · intro a1 h
      rcases h with h | h
      · simp only [Step.continue.injEq] at h
        subst h
        exact ⟨rfl, rfl, rfl, rfl⟩
      · simp at h
    · intro a1 h; simp at h
  | succ n ih =>
    intro y a
    simp only [detect_rows]
    obtain ⟨hc, hr⟩ := detect_row_spec y a.width 0 a
    cases hp : detect_row y a.width 0 a with
    | «continue» a2 =>
      obtain ⟨e1, e2, e3, e4⟩ := hc a2 (Or.inl hp)
      obtain ⟨ihc, ihr⟩ := ih (y + 1) a2
      constructor
      · intro a1 h
        obtain ⟨f1, f2, f3, f4⟩ := ihc a1 h
        exact ⟨f1.trans e1, f2.trans e2, f3.trans e3, f4.trans e4⟩
      · intro a1 h
        obtain ⟨y1, x1, g1, g2, g3, g4, g5⟩ := ihr a1 h
        rw [e1, e3] at g4 g5
        rw [e2] at g3
        exact ⟨y1, x1, by omega, by omega, g3, g4, g5⟩
    | returned a2 =>
      obtain ⟨x1, _, r2, r3, r4⟩ := hr a2 hp
      constructor
      · intro a1 h; simp at h
      · intro a1 h
        simp only [Step.returned.injEq] at h
        subst h
        exact ⟨y, x1, le_refl _, by omega, by omega, r3, r4⟩
    | sigsegv a2 =>
      have e := hc a2 (Or.inr hp)
      constructor
      · intro a1 h
        rcases h with h | h
        · simp at h
        · simp only [Step.sigsegv.injEq] at h
          subst h
          exact e
      · intro a1 h; simp at h

end TestC

/-! ## The claims -/

namespace Main3

/-- Claim C1 (round trip of the extractor).  Let the bytes of a message `m` be
stored in extractor order for the window of columns `start_col .. end_col`
that starts on row `start_row`: byte `i` at offset `message_offset row_stride
start_row start_col end_col i` (so that this address is mapped and holds the
byte).  If `start_col ≤ end_col`, the message fits into rows `start_row .. 0`
(`m.length ≤ 3 * (end_col - start_col + 1) * (start_row + 1)`), its length is
an `unsigned short` and the largest offset does not overflow 32 bits, then
`print_message` of `main3.c` returns and has written exactly the bytes of `m`,
in order; `start_row + 1` passes of the outer loop suffice.  The bound
`row_stride ≥ 4 * (end_col + 1)` of the claim is not needed for this. -/
theorem print_message_round_trip (pixel_data : Mem)
    (row_stride start_row start_col end_col : Nat) (m : List Nat) (fuel : Nat)
    (hcol : start_col ≤ end_col)
    (hlen : m.length ≤ 3 * (end_col - start_col + 1) * (start_row + 1))
    (hu16 : m.length < 65536)
    (hovf : start_row * row_stride + end_col * 4 + 2 < 4294967296)
    (hbyte : ∀ b ∈ m, b < 256)
    (hstored : ∀ (i : Nat) (hi : i < m.length),
      pixel_data (message_offset row_stride start_row start_col end_col i) =
        some (m.get ⟨i, hi⟩))
    (hfuel : start_row + 1 ≤ fuel) :
    (print_message pixel_data fuel m.length start_row start_col end_col row_stride).map
      (fun st => st.out) = some m := by
  have hw : ((end_col : Int) + 1 - (start_col : Int)).toNat = end_col - start_col + 1 := by omega
  have hw1 : 1 ≤ end_col - start_col + 1 := by omega
  have hrows : rows_needed m.length (end_col - start_col + 1) ≤ start_row + 1 :=
    rows_needed_le _ _ _ hw1 hlen
  rw [print_message_eq pixel_data fuel m.length start_row start_col end_col row_stride hu16
    (by omega) (by rw [hw]; omega)]
  simp only [Option.map_some', Option.some.injEq, hw]
  have hcover := le_mul_rows_needed m.length (end_col - start_col + 1) hw1
  have hget : ∀ i, i < m.length →
      ((stream_offsets row_stride start_col (end_col - start_col + 1)
        (rows_needed m.length (end_col - start_col + 1)) start_row).take m.length)[i]? =
        some (message_offset row_stride start_row start_col end_col i) := by
    intro i hi
    have hi2 : i < 3 * (end_col - start_col + 1) *
        rows_needed m.length (end_col - start_col + 1) := by omega
    rw [List.getElem?_take_of_lt hi,
      stream_offsets_getElem_opt row_stride start_col _ hw1 _ start_row i hi2]
    congr 1
    have hc : 0 < 3 * (end_col - start_col + 1) := by omega
    have hq : i / (3 * (end_col - start_col + 1)) ≤ start_row := by
      have : i / (3 * (end_col - start_col + 1)) < start_row + 1 :=
        (Nat.div_lt_iff_lt_mul hc).2 (by
          have : (start_row + 1) * (3 * (end_col - start_col + 1)) =
            3 * (end_col - start_col + 1) * (start_row + 1) := by ring
          omega)
      omega
    have hj : i % (3 * (end_col - start_col + 1)) < 3 * (end_col - start_col + 1) :=
      Nat.mod_lt _ hc
    have hA : (start_row - i / (3 * (end_col - start_col + 1))) * row_stride ≤
        start_row * row_stride := Nat.mul_le_mul_right _ (Nat.sub_le _ _)
    have hcast : ((start_row : Int) - ((i / (3 * (end_col - start_col + 1)) : Nat) : Int)) *
        (row_stride : Int) =
        (((start_row - i / (3 * (end_col - start_col + 1))) * row_stride : Nat) : Int) := by
      rw [Nat.cast_mul, Nat.cast_sub hq]
    unfold pixel_index to_u32 message_offset
    rw [hcast]
    generalize (start_row - i / (3 * (end_col - start_col + 1))) * row_stride = a at hA ⊢
    omega
  have hread : ∀ o ∈ (stream_offsets row_stride start_col (end_col - start_col + 1)
      (rows_needed m.length (end_col - start_col + 1)) start_row).take m.length,
      readable pixel_data o = true := by
    intro o ho
    obtain ⟨i, hio⟩ := List.mem_iff_getElem?.1 ho
    have hi : i < m.length := by
      by_contra hge
      rw [List.getElem?_eq_none (by simp only [List.length_take]; omega)] at hio
      cases hio
    rw [hget i hi] at hio
    simp only [Option.some.injEq] at hio
    subst hio
    unfold readable
    rw [hstored i hi]
    rfl
  rw [bytes_at_of_readable _ _ hread]
  apply List.ext_getElem?
  intro i
  by_cases hi : i < m.length
  · rw [List.getElem?_map, hget i hi]
    simp only [Option.map_some']
    rw [List.getElem?_eq_getElem hi]
    congr 1
    unfold load
    rw [hstored i hi]
    exact Nat.mod_eq_of_lt (hbyte _ (List.get_mem _ _ _))
  · have h1 : m.length ≤ i := by omega
    rw [List.getElem?_eq_none h1, List.getElem?_eq_none]
    simp only [List.length_map, List.length_take]
    omega

/-- Witness of C1: the eight bytes `0x41 .. 0x48` are read back from
`round_trip_mem`. -/
theorem print_message_round_trip_witness :
    (print_message round_trip_mem 2 8 1 2 3 16).map (fun st => st.out) =
      some [65, 66, 67, 68, 69, 70, 71, 72] :=
  print_message_round_trip round_trip_mem 16 1 2 3 [65, 66, 67, 68, 69, 70, 71, 72] 2
    (by decide) (by decide) (by decide) (by decide) (by decide) (by decide!) (by decide)

/-- Claim C2 (counterexample).  On `low_header_image` the length pixel lies on
row 1 with `blue + red = 5`, so `main` of `main3.c` calls `print_message` with
`message_len = 5` and `y = -1`.  The call returns after two passes of its outer
loop, having passed five addresses just below `pixel_data + 2 ^ 32` to `write`;
none of them is mapped, every `write` fails, and not one of the five bytes is
written. -/
theorem print_message_writes_no_byte :
    (main 2 low_header_image).map (fun r => r.calls) =
      some [{ message_len := 5, y := -1, start_x := 3, end_x := 3, row_size := 16 }] ∧
    print_message low_header_image.pixel_data 2 5 (-1) 3 3 16 =
      some { message_len := 0, y := -3, out := []
             reads := [4294967292, 4294967293, 4294967294, 4294967276, 4294967277] } ∧
    (∀ o ∈ [4294967292, 4294967293, 4294967294, 4294967276, 4294967277],
      readable low_header_image.pixel_data o = false) := by
  decide!

/-- Claim C2 (amended: exact number of `write` calls and of rows).  For every
memory, every `message_len` below `65536`, every `y` and every
`start_x ≤ end_x`: with `w = end_x - start_x + 1` pixels per row,
`print_message` of `main3.c` returns as soon as the outer loop is allowed
`ceil (message_len / (3 * w))` passes; it has then passed exactly `message_len`
addresses to `write`, `message_len` has reached zero and `y` has been
decremented exactly `ceil (message_len / (3 * w))` times; the bytes written are
those at the mapped ones among these addresses, in order, so at most
`message_len` bytes, and exactly `message_len` when all the addresses are
mapped.  With fewer passes allowed the loop has not finished.  So exactly that
many rows are visited. -/
theorem print_message_exact_attempts (pixel_data : Mem) (message_len : Nat)
    (y start_x end_x : Int) (row_size : Nat)
    (hlen : message_len < 65536) (hcol : start_x ≤ end_x) :
    (∀ fuel : Nat, rows_needed message_len (end_x - start_x + 1).toNat ≤ fuel →
      ∃ st : PrintState,
        print_message pixel_data fuel message_len y start_x end_x row_size = some st ∧
        st.message_len = 0 ∧ st.reads.length = message_len ∧
        st.out = bytes_at pixel_data st.reads ∧ st.out.length ≤ message_len ∧
        ((∀ o ∈ st.reads, readable pixel_data o = true) →
          st.out = st.reads.map (load pixel_data) ∧ st.out.length = message_len) ∧
        st.y = y - ((rows_needed message_len (end_x - start_x + 1).toNat : Nat) : Int)) ∧
    (∀ fuel : Nat, fuel < rows_needed message_len (end_x - start_x + 1).toNat →
      print_message pixel_data fuel message_len y start_x end_x row_size = none) ∧
    rows_needed message_len (end_x - start_x + 1).toNat =
      (message_len + 3 * (end_x - start_x + 1).toNat - 1) / (3 * (end_x - start_x + 1).toNat) := by
  have hw : (end_x + 1 - start_x).toNat = (end_x - start_x + 1).toNat := by omega
  have hw1 : 1 ≤ (end_x - start_x + 1).toNat := by omega
  refine ⟨?_, ?_, rfl⟩
  · intro fuel hfuel
    have hcover := le_mul_rows_needed message_len _ hw1
    have hreads : ((stream_offsets row_size start_x (end_x + 1 - start_x).toNat
        (rows_needed message_len (end_x + 1 - start_x).toNat) y).take message_len).length =
        message_len := by
      simp only [List.length_take, length_stream_offsets, hw]
      omega
    refine ⟨_, print_message_eq pixel_data fuel message_len y start_x end_x row_size hlen hcol
      (by rw [hw]; exact hfuel), rfl, hreads, rfl, ?_, ?_, ?_⟩
    · have hle := bytes_at_length_le pixel_data
        ((stream_offsets row_size start_x (end_x + 1 - start_x).toNat
          (rows_needed message_len (end_x + 1 - start_x).toNat) y).take message_len)
      rw [hreads] at hle
      exact hle
    · intro hread
      simp only at hread ⊢
      rw [bytes_at_of_readable _ _ hread]
      exact ⟨rfl, by rw [List.length_map]; exact hreads⟩
    · simp only [hw]
  · intro fuel hfuel
    unfold print_message
    rw [Nat.mod_eq_of_lt hlen]
    exact print_loop_none pixel_data row_size start_x end_x _ hw hw1 fuel _ hfuel

/-- Witness of C2 (amended): eight bytes over a window of two pixels per row
take two rows. -/
theorem print_message_exact_attempts_witness :
    (∀ fuel : Nat, rows_needed 8 ((3 : Int) - 2 + 1).toNat ≤ fuel →
      ∃ st : PrintState,
        print_message round_trip_mem fuel 8 1 2 3 16 = some st ∧
        st.message_len = 0 ∧ st.reads.length = 8 ∧
        st.out = bytes_at round_trip_mem st.reads ∧ st.out.length ≤ 8 ∧
        ((∀ o ∈ st.reads, readable round_trip_mem o = true) →
          st.out = st.reads.map (load round_trip_mem) ∧ st.out.length = 8) ∧
        st.y = 1 - ((rows_needed 8 ((3 : Int) - 2 + 1).toNat : Nat) : Int)) ∧
    (∀ fuel : Nat, fuel < rows_needed 8 ((3 : Int) - 2 + 1).toNat →
      print_message round_trip_mem fuel 8 1 2 3 16 = none) ∧
    rows_needed 8 ((3 : Int) - 2 + 1).toNat =
      (8 + 3 * ((3 : Int) - 2 + 1).toNat - 1) / (3 * ((3 : Int) - 2 + 1).toNat) :=
  print_message_exact_attempts round_trip_mem 8 1 2 3 16 (by decide) (by decide)

/-- Claim C3 (arguments of the extractor call).  On an image whose height and
width fit the `int` parameters (`height ≤ 2 ^ 31`, `width ≤ 2 ^ 31 - 2`),
whenever the scan of `main3.c` resolves at pixel `(y, x)` in a state whose
recorded first-marker column is `st.found_header`, the three bytes of that
pixel have been loaded, and the call has `message_len = blue + red` of that
pixel (at most 510; the green byte does not enter), `y = row - 2`,
`start_x = found_header + 2`, `end_x = x` and the `row_size` of the image.
`main` makes exactly this one call: for every bound on the extractor's loop the
run of `main` is the run of `print_message` on these arguments, followed by
`return 0`, its list of calls being this call alone.  So `main` returns, having
made the call, when the length is zero and, given enough passes, when
`start_x ≤ end_x`; and it stays inside the call for ever when the length is
positive and `end_x < start_x`. -/
theorem scan_call_arguments (img : Image) (st : ScanState) (y x : Nat) (c : Call)
    (hheight : img.height ≤ 2147483648) (hwidth : img.width ≤ 2147483646)
    (h : scan img = .resolved st y x c) :
    y < img.height ∧ x < img.width ∧ pixel_readable img y x = true ∧
    c.message_len = blue img y x + red img y x ∧ c.message_len ≤ 510 ∧
    c.y = (y : Int) - 2 ∧ c.start_x = (st.found_header : Int) + 2 ∧ c.end_x = (x : Int) ∧
    c.row_size = row_size img.width img.bit_per_pixel ∧
    (∀ fuel : Nat, main fuel img =
      (print_message img.pixel_data fuel (blue img y x + red img y x) ((y : Int) - 2)
          ((st.found_header : Int) + 2) (x : Int) (row_size img.width img.bit_per_pixel)).map
        (fun p => Exit.returned
          { status := 0, out := p.out, calls := [c], iters := st.iters,
            scan_reads := st.reads, print_reads := p.reads })) ∧
    (∀ (fuel : Nat) (e : Exit), main fuel img = some e →
      ∃ run : Run, e = .returned run ∧ run.calls = [c]) ∧
    (blue img y x + red img y x = 0 → ∀ fuel : Nat,
      ∃ run : Run, main fuel img = some (.returned run) ∧ run.calls = [c]) ∧
    (st.found_header + 2 ≤ x → ∀ fuel : Nat,
      rows_needed (blue img y x + red img y x) (x - (st.found_header + 2) + 1) ≤ fuel →
      ∃ run : Run, main fuel img = some (.returned run) ∧ run.calls = [c]) ∧
    (x < st.found_header + 2 → 0 < blue img y x + red img y x →
      ∀ fuel : Nat, main fuel img = none) := by
  obtain ⟨hy, hx, hc⟩ := scan_resolved h
  have hfh := (scan_found_header_lt img).2 _ _ _ _ h
  have hb := load_lt img.pixel_data
    ((scan_index y (row_size img.width img.bit_per_pixel) x + 0) % 4294967296)
  have hr := load_lt img.pixel_data
    ((scan_index y (row_size img.width img.bit_per_pixel) x + 2) % 4294967296)
  have hlen : c.message_len = blue img y x + red img y x := by
    rw [hc]; simp only [call_args, blue, red]; omega
  have hlt : blue img y x + red img y x < 65536 := by simp only [blue, red]; omega
  have hcy : c.y = (y : Int) - 2 := by
    rw [hc]; simp only [call_args]; exact to_i32_sub_two y (by omega)
  have hsx : c.start_x = (st.found_header : Int) + 2 := by
    rw [hc]; simp only [call_args]; exact to_i32_add_two _ (by omega)
  have hex : c.end_x = (x : Int) := by
    rw [hc]; simp only [call_args]; exact to_i32_of_lt x (by omega)
  have hrs : c.row_size = row_size img.width img.bit_per_pixel := by
    rw [hc]; simp only [call_args]
  have hmain : ∀ fuel : Nat, main fuel img =
      (print_message img.pixel_data fuel (blue img y x + red img y x) ((y : Int) - 2)
          ((st.found_header : Int) + 2) (x : Int) (row_size img.width img.bit_per_pixel)).map
        (fun p => Exit.returned
          { status := 0, out := p.out, calls := [c], iters := st.iters,
            scan_reads := st.reads, print_reads := p.reads }) := by
    intro fuel
    unfold main
    rw [h]
    simp only
    rw [hlen, hcy, hsx, hex, hrs]
    cases print_message img.pixel_data fuel (blue img y x + red img y x) ((y : Int) - 2)
      ((st.found_header : Int) + 2) (x : Int) (row_size img.width img.bit_per_pixel) <;> rfl
  refine ⟨hy, hx, scan_readable_of_resolved h, hlen, ?_, hcy, hsx, hex, hrs, hmain, ?_, ?_, ?_, ?_⟩
  · rw [hlen]; simp only [blue, red]; omega
  · intro fuel e he
    rw [hmain fuel] at he
    cases hp : print_message img.pixel_data fuel (blue img y x + red img y x) ((y : Int) - 2)
      ((st.found_header : Int) + 2) (x : Int) (row_size img.width img.bit_per_pixel) with
    | none => rw [hp] at he; simp at he
    | some p =>
      rw [hp] at he
      simp only [Option.map_some', Option.some.injEq] at he
      exact ⟨_, he.symm, rfl⟩
  · intro hzero fuel
    rw [hmain fuel, hzero, print_message_zero]
    exact ⟨_, rfl, rfl⟩
  · intro hcol fuel hfuel
    have hw : ((x : Int) + 1 - ((st.found_header : Int) + 2)).toNat =
        x - (st.found_header + 2) + 1 := by omega
    rw [hmain fuel, print_message_eq img.pixel_data fuel _ _ _ _ _ hlt (by omega)
      (by rw [hw]; exact hfuel)]
    exact ⟨_, rfl, rfl⟩
  · intro hcol hpos fuel
    rw [hmain fuel, print_message_spins img.pixel_data fuel _ _ _ _ _ hpos hlt (by omega)]
    rfl

/-- Witness of C3: the scan of `resolving_image` resolves at pixel `(3, 3)`
with first-marker column 1 and calls the extractor with length 5, row 1 and
columns 3 to 3. -/
theorem scan_call_arguments_witness :
    3 < resolving_image.height ∧ 3 < resolving_image.width ∧
    pixel_readable resolving_image 3 3 = true ∧
    (5 : Nat) = blue resolving_image 3 3 + red resolving_image 3 3 ∧ (5 : Nat) ≤ 510 ∧
    (1 : Int) = ((3 : Nat) : Int) - 2 ∧ (3 : Int) = ((1 : Nat) : Int) + 2 ∧
    (3 : Int) = ((3 : Nat) : Int) ∧ (16 : Nat) = row_size 4 32 ∧
    (∀ fuel : Nat, main fuel resolving_image =
      (print_message resolving_image.pixel_data fuel
          (blue resolving_image 3 3 + red resolving_image 3 3) (((3 : Nat) : Int) - 2)
          (((1 : Nat) : Int) + 2) ((3 : Nat) : Int) (row_size 4 32)).map
        (fun p => Exit.returned
          { status := 0, out := p.out
            calls := [{ message_len := 5, y := 1, start_x := 3, end_x := 3, row_size := 16 }]
            iters := 16, scan_reads := resolving_state.reads, print_reads := p.reads })) ∧
    (∀ (fuel : Nat) (e : Exit), main fuel resolving_image = some e →
      ∃ run : Run, e = .returned run ∧
        run.calls = [{ message_len := 5, y := 1, start_x := 3, end_x := 3, row_size := 16 }]) ∧
    (blue resolving_image 3 3 + red resolving_image 3 3 = 0 → ∀ fuel : Nat,
      ∃ run : Run, main fuel resolving_image = some (.returned run) ∧
        run.calls = [{ message_len := 5, y := 1, start_x := 3, end_x := 3, row_size := 16 }]) ∧
    (1 + 2 ≤ 3 → ∀ fuel : Nat,
      rows_needed (blue resolving_image 3 3 + red resolving_image 3 3) (3 - (1 + 2) + 1) ≤ fuel →
      ∃ run : Run, main fuel resolving_image = some (.returned run) ∧
        run.calls = [{ message_len := 5, y := 1, start_x := 3, end_x := 3, row_size := 16 }]) ∧
    (3 < 1 + 2 → 0 < blue resolving_image 3 3 + red resolving_image 3 3 →
      ∀ fuel : Nat, main fuel resolving_image = none) :=
  scan_call_arguments resolving_image resolving_state 3 3
    { message_len := 5, y := 1, start_x := 3, end_x := 3, row_size := 16 }
    (by decide) (by decide) (by decide!)

end Main3

namespace TestC

/-- Claim C4 (marker equivalence, evaluated at the failing input).  On the batch
whose pixel 0 is `(127, 188, 217)` the scalar predicate holds for pixel 0, but
the combined mask of `parallel_message_detect` reports no match for it: every
byte of `red_mask` is zero, because `_mm256_srli_epi16(pixel_vec, 16)` clears
every 16-bit lane, and so `_mm256_movemask_epi8(combined_mask)` is zero. -/
theorem vector_match_misses_marker :
    scalar_match marker_batch 0 = true ∧ vector_match marker_batch 0 = false ∧
    mm256_movemask_epi8 (combined_mask marker_batch) = 0 ∧
    (List.range 32).map (red_mask marker_batch) = List.replicate 32 0 := by
  decide!

/-- Claim C5 (counterexample).  On `resolving_image`, which has exactly one header
line and no other marker pixel, the sequential scanner of `main3.c` resolves
`message_len = 5`, while with 1, 2 and 8 workers every worker of the parallel
scanner returns (no signal) and leaves `message_len = 0` in its record. -/
theorem parallel_differs_from_sequential :
    (Main3.main 2 resolving_image).map (fun r => r.calls.map (fun c => c.message_len)) =
      some [5] ∧
    (run_threads resolving_image 1).map (fun e => (e.signal, e.record.message_len)) =
      [(none, 0)] ∧
    (run_threads resolving_image 2).map (fun e => (e.signal, e.record.message_len)) =
      [(none, 0), (none, 0)] ∧
    (run_threads resolving_image 8).map (fun e => (e.signal, e.record.message_len)) =
      [(none, 0), (none, 0), (none, 0), (none, 0), (none, 0), (none, 0), (none, 0),
        (none, 0)] := by
  decide!

/-- Claim C5 (amended).  For every image and every number of workers, the
`message_len` left in the record of worker `i` is either its initial `0`, or
blue plus red of a pixel `(y, x)` of that worker's own row range at which the
worker's vector test reported a match: the reporting pixel itself, not the
first non-marker pixel after the closing marker, from which the sequential
scanner takes its length.  This holds however the worker ends. -/
theorem worker_message_len_source (img : Main3.Image) (num_threads i : Nat) :
    (parallel_message_detect (thread_args img num_threads i)).record.message_len = 0 ∨
    ∃ y x, in_row_range (thread_args img num_threads i) y ∧ x < img.width ∧
      reports_match img.pixel_data (Main3.row_size img.width img.bit_per_pixel) y x ∧
      (parallel_message_detect (thread_args img num_threads i)).record.message_len =
        same_pixel_len img.pixel_data (Main3.row_size img.width img.bit_per_pixel) y x := by
  unfold parallel_message_detect
  cases hs : start_row (thread_args img num_threads i) with
  | none => left; rfl
  | some s =>
    cases he : end_row (thread_args img num_threads i) with
    | none => left; rfl
    | some e =>
      simp only
      obtain ⟨hc, hr⟩ := detect_rows_spec (e - s) s (thread_args img num_threads i)
      cases hp : detect_rows (e - s) s (thread_args img num_threads i) with
      | «continue» a1 =>
        left
        exact (hc a1 (Or.inl hp)).2.2.2
      | returned a1 =>
        right
        obtain ⟨y1, x1, g1, g2, g3, g4, g5⟩ := hr a1 hp
        exact ⟨y1, x1, ⟨s, e, hs, he, g1, by omega⟩, g3, g4, g5⟩
      | sigsegv a1 =>
        left
        exact (hc a1 (Or.inr hp)).2.2.2

end TestC

namespace Main3

/-- Claim C6 (counterexample).  On the image of the concrete scenario, with rows
numbered either as the scan numbers them or with row 3 stored first, `main` of
`main3.c` returns without calling the extractor and its output is empty: the
marker at column 0 leaves `found_header` at 0, the marker at column 1 is taken
for the first one, and the header is never closed. -/
theorem scenario_output_is_empty :
    (Main3.main 16 scenario_image).map (fun r => (r.status, r.out, r.calls)) =
      some (some 0, [], []) ∧
    (Main3.main 16 scenario_image_bottom_up).map (fun r => (r.status, r.out, r.calls)) =
      some (some 0, [], []) := by
  decide!

/-- Claim C6 (amended).  On `resolving_image` (4 by 4 pixels of 32 bits, row stride
16; the only marker pixels at columns 1 and 2 of row 3, the pixel
`(3, 0, 2)` right after them at column 3 of row 3; the bytes `0x41 0x42 0x43`
in column 3 of row 1 and `0x44 0x45` in column 3 of row 0) `main` of `main3.c`
returns, as soon as two passes of the extractor's outer loop are allowed, with
exactly the five bytes `ABCDE` written. -/
theorem resolving_image_output (fuel : Nat) (hfuel : 2 ≤ fuel) :
    Main3.main fuel resolving_image =
      some (.returned
        { status := 0, out := [65, 66, 67, 68, 69]
          calls := [{ message_len := 5, y := 1, start_x := 3, end_x := 3, row_size := 16 }]
          iters := 16, scan_reads := resolving_state.reads
          print_reads := [28, 29, 30, 12, 13] }) := by
  have hs : scan resolving_image = .resolved resolving_state 3 3
      { message_len := 5, y := 1, start_x := 3, end_x := 3, row_size := 16 } := by decide!
  have hp := print_message_eq resolving_image.pixel_data fuel 5 1 3 3 16 (by decide) (by decide)
    (by
      have : rows_needed 5 ((3 : Int) + 1 - 3).toNat = 2 := by decide
      omega)
  unfold Main3.main
  rw [hs]
  simp only
  rw [hp]
  decide!

/-- Witness of C6 (amended): two passes are allowed. -/
theorem resolving_image_output_witness :
    Main3.main 2 resolving_image =
      some (.returned
        { status := 0, out := [65, 66, 67, 68, 69]
          calls := [{ message_len := 5, y := 1, start_x := 3, end_x := 3, row_size := 16 }]
          iters := 16, scan_reads := resolving_state.reads
          print_reads := [28, 29, 30, 12, 13] }) :=
  resolving_image_output 2 (by decide)

/-- Claim C7 (zero length).  Whenever the scan of `main3.c` resolves at a pixel
with `blue + red = 0`, the call has `message_len = 0`, `print_message` returns
at once with nothing read, nothing written and `y` untouched, and the run ends
with empty output and no read made by the extractor; more generally
`print_message` with `message_len = 0` does so for every `start_row`,
`start_col`, `end_col` and every bound on its loop. -/
theorem zero_length_no_walk (img : Image) (st : ScanState) (y x : Nat) (c : Call) (fuel : Nat)
    (h : scan img = .resolved st y x c) (hzero : blue img y x + red img y x = 0) :
    c.message_len = 0 ∧
    print_message img.pixel_data fuel c.message_len c.y c.start_x c.end_x c.row_size =
      some { message_len := 0, y := c.y, out := [], reads := [] } ∧
    main fuel img =
      some (.returned
        { status := 0, out := [], calls := [c], iters := st.iters,
          scan_reads := st.reads, print_reads := [] }) ∧
    (∀ (pixel_data : Mem) (start_row start_col end_col : Int) (row_stride : Nat),
      print_message pixel_data fuel 0 start_row start_col end_col row_stride =
        some { message_len := 0, y := start_row, out := [], reads := [] }) := by
  obtain ⟨_, _, hc⟩ := scan_resolved h
  have hlen : c.message_len = 0 := by
    rw [hc]; simp only [call_args, hzero]
  refine ⟨hlen, ?_, ?_, fun pd sr sc ec rs => print_message_zero pd fuel sr sc ec rs⟩
  · rw [hlen]; exact print_message_zero _ _ _ _ _ _
  · unfold main
    rw [h]
    simp only
    rw [hlen, print_message_zero]

/-- Witness of C7: on `zero_length_image` the scan resolves at the black pixel
`(2, 3)`. -/
theorem zero_length_no_walk_witness :
    (0 : Nat) = 0 ∧
    print_message zero_length_image.pixel_data 7 0 0 3 3 16 =
      some { message_len := 0, y := 0, out := [], reads := [] } ∧
    main 7 zero_length_image =
      some (.returned
        { status := 0, out := []
          calls := [{ message_len := 0, y := 0, start_x := 3, end_x := 3, row_size := 16 }]
          iters := zero_length_state.iters
          scan_reads := zero_length_state.reads, print_reads := [] }) ∧
    (∀ (pixel_data : Mem) (start_row start_col end_col : Int) (row_stride : Nat),
      print_message pixel_data 7 0 start_row start_col end_col row_stride =
        some { message_len := 0, y := start_row, out := [], reads := [] }) :=
  zero_length_no_walk zero_length_image zero_length_state 2 3
    { message_len := 0, y := 0, start_x := 3, end_x := 3, row_size := 16 } 7
    (by decide!) (by decide!)

/-- Claim C8 (empty image).  If `width = 0` or `height = 0`, then for every
memory the scan ends in its initial state (no pass of the loop body, no read),
the extractor is not called and `main` returns status 0 with empty output. -/
theorem empty_image_no_scan (img : Image) (fuel : Nat)
    (h : img.width = 0 ∨ img.height = 0) :
    scan img = .continue scan_init ∧
    main fuel img =
      some (.returned
        { status := 0, out := [], calls := [], iters := 0, scan_reads := [],
          print_reads := [] }) := by
  have hs : scan img = .continue scan_init := by
    unfold scan
    rcases h with h | h
    · exact scan_rows_width_zero img h _ _ _
    · rw [h]; rfl
  refine ⟨hs, ?_⟩
  unfold main
  rw [hs]
  rfl

/-- Witness of C8: width 0, height 5, empty pixel buffer. -/
theorem empty_image_no_scan_witness :
    scan { width := 0, height := 5, bit_per_pixel := 32, pixel_data := mem_of [] } =
      .continue scan_init ∧
    main 3 { width := 0, height := 5, bit_per_pixel := 32, pixel_data := mem_of [] } =
      some (.returned
        { status := 0, out := [], calls := [], iters := 0, scan_reads := [],
          print_reads := [] }) :=
  empty_image_no_scan { width := 0, height := 5, bit_per_pixel := 32, pixel_data := mem_of [] } 3
    (Or.inl rfl)

/-- Claim C9 (no marker found).  If at most one of the `height * width` pixels
that the scan visits has the marker colour (any two marker pixels coincide),
the header is never closed, the extractor is never called and nothing is
written.  If all reads are in bounds (the three bytes of each of these pixels
are mapped), the scan of `main3.c` runs over all `height * width` pixels and
`main` returns status 0 with empty output; if they are not, the run is killed
by `SIGSEGV` in a load of the scan. -/
theorem no_marker_found (img : Image) (fuel : Nat)
    (hone : ∀ y < img.height, ∀ x < img.width, ∀ y1 < img.height, ∀ x1 < img.width,
      is_marker img y x → is_marker img y1 x1 → y = y1 ∧ x = x1) :
    (∃ e : Exit, main fuel img = some e ∧ e.calls = [] ∧ e.out = []) ∧
    ((∀ y < img.height, ∀ x < img.width, pixel_readable img y x = true) →
      ∃ st : ScanState, scan img = .continue st ∧ st.iters = img.height * img.width ∧
        st.header_line = 0 ∧
        main fuel img =
          some (.returned
            { status := 0, out := [], calls := [], iters := img.height * img.width,
              scan_reads := st.reads, print_reads := [] })) ∧
    ((∃ y < img.height, ∃ x < img.width, pixel_readable img y x = false) →
      ∃ st : ScanState, scan img = .sigsegv st ∧ st.header_line = 0 ∧
        main fuel img = some (.sigsegv st)) := by
  have key := scan_induction img
    (fun y x st => st.header_line = 0 ∧ st.iters = y * img.width + x ∧
      (st.found_header ≠ 0 → ∃ y1 x1, y1 < img.height ∧ x1 < img.width ∧ is_marker img y1 x1 ∧
        (y1 < y ∨ (y1 = y ∧ x1 < x))) ∧
      (∀ y1 x1, y1 < img.height → x1 < img.width → (y1 < y ∨ (y1 = y ∧ x1 < x)) →
        pixel_readable img y1 x1 = true))
    (fun _ _ _ _ => False)
    (fun st => st.header_line = 0 ∧
      ∃ y < img.height, ∃ x < img.width, pixel_readable img y x = false)
    (by
      intro y x st hy hx hI
      obtain ⟨hI1, hI2, hI3, hI4⟩ := hI
      refine ⟨?_, ?_, ?_⟩
      · intro st1 h
        have hrd := scan_pixel_readable_of_continue h
        have hI4n : ∀ y1 x1, y1 < img.height → x1 < img.width →
            (y1 < y ∨ (y1 = y ∧ x1 < x + 1)) → pixel_readable img y1 x1 = true := by
          intro y1 x1 hy1 hx1 hord
          by_cases hex : y1 = y ∧ x1 = x
          · rw [hex.1, hex.2]; exact hrd
          · exact hI4 y1 x1 hy1 hx1 (by omega)
        obtain ⟨hit, _, h3⟩ := scan_pixel_continue h
        rcases h3 with h3 | h3 | h3
        · refine ⟨by rw [h3.2.1]; exact hI1, by rw [hit, hI2]; ring, fun _ => ?_, hI4n⟩
          exact ⟨y, x, hy, hx, ⟨h3.2.2.2.1, h3.2.2.2.2.1, h3.2.2.2.2.2⟩, Or.inr ⟨rfl, by omega⟩⟩
        · exfalso
          obtain ⟨y1, x1, hy1, hx1, hm1, hord⟩ := hI3 h3.2.2.1
          have := hone y hy x hx y1 hy1 x1 hx1
            ⟨h3.2.2.2.2.1, h3.2.2.2.2.2.1, h3.2.2.2.2.2.2⟩ hm1
          omega
        · refine ⟨by rw [h3.2]; exact hI1, by rw [hit, hI2]; ring, fun hne => ?_, hI4n⟩
          rw [h3.1] at hne
          obtain ⟨y1, x1, hy1, hx1, hm1, hord⟩ := hI3 hne
          exact ⟨y1, x1, hy1, hx1, hm1, by omega⟩
      · intro st1 y1 x1 c h
        obtain ⟨_, _, _, _, h5, _⟩ := scan_pixel_resolved h
        omega
      · intro st1 h
        obtain ⟨hnr, _, hl, _⟩ := scan_pixel_sigsegv h
        exact ⟨by rw [hl]; exact hI1, y, hy, x, hx, hnr⟩)
    (by
      intro y st hy hI
      obtain ⟨hI1, hI2, hI3, hI4⟩ := hI
      refine ⟨hI1, by rw [hI2]; ring, fun hne => ?_, ?_⟩
      · obtain ⟨y1, x1, hy1, hx1, hm1, hord⟩ := hI3 hne
        exact ⟨y1, x1, hy1, hx1, hm1, by omega⟩
      · intro y1 x1 hy1 hx1 hord
        exact hI4 y1 x1 hy1 hx1 (by omega))
    (by
      refine ⟨rfl, by simp [scan_init], fun hne => absurd rfl hne, ?_⟩
      intro y1 x1 _ _ hord
      omega)
  cases hs : scan img with
  | «continue» st =>
    obtain ⟨h1, h2, _, h4⟩ := key.1 st hs
    have hmain : main fuel img =
        some (.returned
          { status := 0, out := [], calls := [], iters := img.height * img.width,
            scan_reads := st.reads, print_reads := [] }) := by
      unfold main
      rw [hs]
      simp only [Option.some.injEq, Exit.returned.injEq, Run.mk.injEq, true_and, and_true]
      simpa using h2
    refine ⟨⟨_, hmain, rfl, rfl⟩, fun _ => ⟨st, rfl, by simpa using h2, h1, hmain⟩, ?_⟩
    rintro ⟨y, hy, x, hx, hnr⟩
    rw [h4 y x hy hx (Or.inl hy)] at hnr
    cases hnr
  | resolved st y x c => exact (key.2.1 st y x c hs).elim
  | sigsegv st =>
    obtain ⟨h1, y, hy, x, hx, hnr⟩ := key.2.2 st hs
    have hmain : main fuel img = some (.sigsegv st) := by
      unfold main
      rw [hs]
    refine ⟨⟨_, hmain, rfl, rfl⟩, ?_, fun _ => ⟨st, rfl, h1, hmain⟩⟩
    intro hread
    rw [hread y hy x hx] at hnr
    cases hnr

/-- Witness of C9: `one_marker_image` has a single marker pixel, and all its
pixels are mapped. -/
theorem no_marker_found_witness :
    ∃ st : ScanState, scan one_marker_image = .continue st ∧
      st.iters = one_marker_image.height * one_marker_image.width ∧
      st.header_line = 0 ∧
      main 4 one_marker_image =
        some (.returned
          { status := 0, out := [], calls := []
            iters := one_marker_image.height * one_marker_image.width
            scan_reads := st.reads, print_reads := [] }) :=
  (no_marker_found one_marker_image 4 (by
    intro y hy x hx y1 hy1 x1 hx1
    have hy2 : y < 2 := hy
    have hx3 : x < 3 := hx
    have hy12 : y1 < 2 := hy1
    have hx13 : x1 < 3 := hx1
    interval_cases y <;> interval_cases x <;> interval_cases y1 <;> interval_cases x1 <;>
      decide!)).2.1 (by
    intro y hy x hx
    have hy2 : y < 2 := hy
    have hx3 : x < 3 := hx
    interval_cases y <;> interval_cases x <;> decide!)

/-- Claim C10 (counterexample).  On `low_header_image` the length pixel lies on
row 1 with `blue + red = 5`, so the call has `y = -1`.  `main` of `main3.c`
returns status 0 all the same, with no error declared: the extractor has
passed to `write` five addresses at offsets just below `2 ^ 32`, far outside
the `row_size * height = 32` bytes of the pixel buffer; none of them being
mapped, nothing has been written. -/
theorem extraction_reads_outside_buffer :
    (Main3.main 2 low_header_image).map (fun r => (r.status, r.out, r.calls, r.print_reads)) =
      some (some 0, [],
        [{ message_len := 5, y := -1, start_x := 3, end_x := 3, row_size := 16 }],
        [4294967292, 4294967293, 4294967294, 4294967276, 4294967277]) ∧
    row_size low_header_image.width low_header_image.bit_per_pixel * low_header_image.height =
      32 := by
  decide!

/-- Claim C10 (amended).  `print_message` of `main3.c` has no bounds check and no
error result.  For every memory, every `message_len` below `65536`, every `y`
(negative ones included) and every `start_x ≤ end_x`, it returns once
`ceil (message_len / (3 * w))` passes are allowed, `w = end_x - start_x + 1`;
it has passed exactly `message_len` addresses to `write`; address number `k`
is at the `u32` offset of channel `k % 3` of the pixel in row `y - k / (3 * w)`
and column `start_x + (k % (3 * w)) / 3`, computed modulo `2 ^ 32`, whether or
not that offset lies in the pixel buffer; and the bytes written are those at
the mapped ones among these addresses, in order (for an unmapped address
`write` fails, nothing is written, and the extractor goes on). -/
theorem print_message_wraps_without_error (pixel_data : Mem) (message_len : Nat)
    (y start_x end_x : Int) (row_size fuel : Nat)
    (hlen : message_len < 65536) (hcol : start_x ≤ end_x)
    (hfuel : rows_needed message_len (end_x - start_x + 1).toNat ≤ fuel) :
    ∃ st : PrintState,
      print_message pixel_data fuel message_len y start_x end_x row_size = some st ∧
      st.reads.length = message_len ∧ st.out = bytes_at pixel_data st.reads ∧
      ∀ k < message_len,
        st.reads[k]? =
          some ((pixel_index (y - ((k / (3 * (end_x - start_x + 1).toNat) : Nat) : Int)) row_size
            (start_x + ((k % (3 * (end_x - start_x + 1).toNat) / 3 : Nat) : Int)) + k % 3) %
              4294967296) := by
  have hw : (end_x + 1 - start_x).toNat = (end_x - start_x + 1).toNat := by omega
  have hw1 : 1 ≤ (end_x - start_x + 1).toNat := by omega
  have hcover := le_mul_rows_needed message_len _ hw1
  refine ⟨_, print_message_eq pixel_data fuel message_len y start_x end_x row_size hlen hcol
    (by rw [hw]; exact hfuel), ?_, rfl, ?_⟩
  · simp only [List.length_take, length_stream_offsets, hw]
    omega
  · intro k hk
    simp only [hw]
    rw [List.getElem?_take_of_lt hk]
    exact stream_offsets_getElem_opt row_size start_x _ hw1 _ y k (by omega)

/-- Witness of C10 (amended): the call that `low_header_image` leads to. -/
theorem print_message_wraps_without_error_witness :
    ∃ st : PrintState,
      print_message low_header_image.pixel_data 2 5 (-1) 3 3 16 = some st ∧
      st.reads.length = 5 ∧ st.out = bytes_at low_header_image.pixel_data st.reads ∧
      ∀ k < 5,
        st.reads[k]? =
          some ((pixel_index (-1 - ((k / (3 * ((3 : Int) - 3 + 1).toNat) : Nat) : Int)) 16
            (3 + ((k % (3 * ((3 : Int) - 3 + 1).toNat) / 3 : Nat) : Int)) + k % 3) %
              4294967296) :=
  print_message_wraps_without_error low_header_image.pixel_data 5 (-1) 3 3 16 2
    (by decide) (by decide) (by decide)

end Main3

/-! ## Further facts about the scan of `main3.c` -/

namespace Main3

theorem scan_pixel_resolved_state {img : Image} {y x : Nat} {st st1 : ScanState} {y1 x1 : Nat}
    {c : Call} (h : scan_pixel img y x st = .resolved st1 y1 x1 c) :
    st1.found_header = st.found_header ∧ st1.header_line = st.header_line ∧
    st1.iters = st.iters + 1 ∧
    st1.reads = st.reads ++
      [(scan_index y (row_size img.width img.bit_per_pixel) x + 0) % 4294967296,
       (scan_index y (row_size img.width img.bit_per_pixel) x + 1) % 4294967296,
       (scan_index y (row_size img.width img.bit_per_pixel) x + 2) % 4294967296] := by
  unfold scan_pixel at h
  simp only at h
  split_ifs at h with r0 r1 r2 h1 h2 h3
  simp only [Outcome.resolved.injEq] at h
  obtain ⟨hst, _, _, _⟩ := h
  subst hst
  exact ⟨rfl, rfl, rfl, rfl⟩

theorem scan_offset_lt (img : Image) (size : Nat)
    (hstride : 4 * img.width ≤ row_size img.width img.bit_per_pixel)
    (hsize : row_size img.width img.bit_per_pixel * img.height ≤ size)
    (y x k : Nat) (hy : y < img.height) (hx : x < img.width) (hk : k ≤ 2) :
    (scan_index y (row_size img.width img.bit_per_pixel) x + k) % 4294967296 < size := by
  unfold scan_index
  generalize row_size img.width img.bit_per_pixel = rs at hstride hsize
  have h1 : (y + 1) * rs ≤ img.height * rs := Nat.mul_le_mul_right _ hy
  have h2 : (y + 1) * rs = y * rs + rs := by ring
  have h3 : rs * img.height = img.height * rs := by ring
  have h4 : ((y * rs + x * 4) % 4294967296 + k) % 4294967296 ≤ y * rs + x * 4 + k := by
    have := Nat.mod_le (y * rs + x * 4) 4294967296
    have := Nat.mod_le ((y * rs + x * 4) % 4294967296 + k) 4294967296
    omega
  omega

theorem pixel_readable_of_marker {img : Image} {y x : Nat} (hm : is_marker img y x) :
    pixel_readable img y x = true := by
  obtain ⟨h1, h2, h3⟩ := hm
  exact pixel_readable_of_channels (by rw [h1]; decide) (by rw [h2]; decide) (by rw [h3]; decide)

theorem scan_pixel_marker_column_zero (img : Image) (y : Nat) (st : ScanState)
    (hfh : st.found_header = 0) (hm : is_marker img y 0) :
    ∃ st1, scan_pixel img y 0 st = .continue st1 ∧ st1.found_header = 0 ∧
      st1.header_line = st.header_line := by
  have hr := pixel_readable_of_marker hm
  obtain ⟨h1, h2, h3⟩ := hm
  rw [scan_pixel_of_readable st hr]
  simp only [h1, h2, h3, hfh, and_self, if_true]
  exact ⟨_, rfl, rfl, rfl⟩

theorem scan_pixel_skips_near_marker (img : Image) (y x : Nat) (st : ScanState)
    (hb : blue img y x = 127) (hg : green img y x = 188)
    (hr0 : red img y x ≠ 0) (hr : red img y x ≠ 217) :
    ∃ st1, scan_pixel img y x st = .continue st1 ∧ st1.found_header = st.found_header ∧
      st1.header_line = st.header_line := by
  have hread : pixel_readable img y x = true :=
    pixel_readable_of_channels (by rw [hb]; decide) (by rw [hg]; decide) hr0
  rw [scan_pixel_of_readable st hread]
  rw [if_neg (by intro h; exact hr h.2.2.1), if_neg (by intro h; exact hr h.2.2.1),
    if_neg (by intro h; exact h.1 ⟨hb, hg, hr0⟩)]
  exact ⟨_, rfl, rfl, rfl⟩

theorem scan_pixel_first_marker (img : Image) (y x : Nat) (st : ScanState)
    (hfh : st.found_header = 0) (hm : is_marker img y x) :
    scan_pixel img y x st =
      .continue
        { found_header := x, header_line := st.header_line
          reads := st.reads ++
            [(scan_index y (row_size img.width img.bit_per_pixel) x + 0) % 4294967296,
             (scan_index y (row_size img.width img.bit_per_pixel) x + 1) % 4294967296,
             (scan_index y (row_size img.width img.bit_per_pixel) x + 2) % 4294967296]
          iters := st.iters + 1 } := by
  have hr := pixel_readable_of_marker hm
  obtain ⟨h1, h2, h3⟩ := hm
  rw [scan_pixel_of_readable st hr]
  simp only [h1, h2, h3, hfh, and_self, if_true]

theorem scan_pixel_closing_marker (img : Image) (y x : Nat) (st : ScanState)
    (hfh : st.found_header ≠ 0) (hm : is_marker img y x) (hx : st.found_header < x) :
    scan_pixel img y x st =
      .continue
        { found_header := st.found_header, header_line := 1
          reads := st.reads ++
            [(scan_index y (row_size img.width img.bit_per_pixel) x + 0) % 4294967296,
             (scan_index y (row_size img.width img.bit_per_pixel) x + 1) % 4294967296,
             (scan_index y (row_size img.width img.bit_per_pixel) x + 2) % 4294967296]
          iters := st.iters + 1 } := by
  have hr := pixel_readable_of_marker hm
  obtain ⟨h1, h2, h3⟩ := hm
  rw [scan_pixel_of_readable st hr]
  simp only [h1, h2, h3, hfh, hx, and_self, and_false, if_false, if_true, gt_iff_lt]

theorem scan_pixel_header_open (img : Image) (y x : Nat) (st : ScanState)
    (hread : pixel_readable img y x = true) (hl : st.header_line = 0)
    (hno : ¬ (is_marker img y x ∧ (st.found_header = 0 ∨ st.found_header < x))) :
    scan_pixel img y x st =
      .continue
        { found_header := st.found_header, header_line := st.header_line
          reads := st.reads ++
            [(scan_index y (row_size img.width img.bit_per_pixel) x + 0) % 4294967296,
             (scan_index y (row_size img.width img.bit_per_pixel) x + 1) % 4294967296,
             (scan_index y (row_size img.width img.bit_per_pixel) x + 2) % 4294967296]
          iters := st.iters + 1 } := by
  unfold is_marker at hno
  rw [scan_pixel_of_readable st hread]
  rw [if_neg (by tauto), if_neg (by intro h; exact hno ⟨⟨h.1, h.2.1, h.2.2.1⟩, Or.inr h.2.2.2⟩),
    if_neg (by rw [hl]; simp)]

theorem scan_pixel_resolves (img : Image) (y x : Nat) (st : ScanState)
    (hread : pixel_readable img y x = true) (hl : st.header_line = 1)
    (hn : ¬ (blue img y x = 127 ∧ green img y x = 188 ∧ red img y x ≠ 0)) :
    scan_pixel img y x st =
      .resolved
        { found_header := st.found_header, header_line := st.header_line
          reads := st.reads ++
            [(scan_index y (row_size img.width img.bit_per_pixel) x + 0) % 4294967296,
             (scan_index y (row_size img.width img.bit_per_pixel) x + 1) % 4294967296,
             (scan_index y (row_size img.width img.bit_per_pixel) x + 2) % 4294967296]
          iters := st.iters + 1 }
        y x (call_args img y x st.found_header) := by
  rw [scan_pixel_of_readable st hread]
  rw [if_neg (by intro h; exact hn ⟨h.1, h.2.1, by rw [h.2.2.1]; decide⟩),
    if_neg (by intro h; exact hn ⟨h.1, h.2.1, by rw [h.2.2.1]; decide⟩),
    if_pos ⟨hn, hl⟩]

end Main3

/-! ## The vector test of `test.c` never matches; the row ranges of the workers -/

namespace TestC

theorem red_mask_zero (pixel_vec : M256) (i : Nat) : red_mask pixel_vec i = 0 := by
  simp [red_mask, mm256_cmpeq_epi8, mm256_and_si256, mm256_srli_epi16, mm256_set1_epi8]

theorem combined_mask_zero (pixel_vec : M256) (i : Nat) : combined_mask pixel_vec i = 0 := by
  simp [combined_mask, mm256_and_si256, red_mask_zero]

theorem movemask_combined_zero (pixel_vec : M256) :
    mm256_movemask_epi8 (combined_mask pixel_vec) = 0 := by
  simp [mm256_movemask_epi8, combined_mask_zero]

theorem detect_pixel_of_loaded (a : ThreadProcessArgs) (y x : Nat) (pixel_vec : M256)
    (h : mm256_loadu_si256 a.pixel_data ((y * a.row_size + x * 4) % 4294967296) =
      some pixel_vec) : detect_pixel a y x = .continue a := by
  unfold detect_pixel
  simp only [h, movemask_combined_zero, ne_eq, not_true_eq_false, if_false]

theorem detect_pixel_of_fault (a : ThreadProcessArgs) (y x : Nat)
    (h : mm256_loadu_si256 a.pixel_data ((y * a.row_size + x * 4) % 4294967296) = none) :
    detect_pixel a y x = .sigsegv a := by
  unfold detect_pixel
  simp only [h]

theorem detect_pixel_of_readable (a : ThreadProcessArgs) (y x : Nat)
    (h : batch_readable a.pixel_data a.row_size y x = true) :
    detect_pixel a y x = .continue a := by
  unfold batch_readable at h
  cases hv : mm256_loadu_si256 a.pixel_data ((y * a.row_size + x * 4) % 4294967296) with
  | none => rw [hv] at h; cases h
  | some v => exact detect_pixel_of_loaded a y x v hv

theorem detect_pixel_cases (a : ThreadProcessArgs) (y x : Nat) :
    detect_pixel a y x = .continue a ∨ detect_pixel a y x = .sigsegv a := by
  cases hv : mm256_loadu_si256 a.pixel_data ((y * a.row_size + x * 4) % 4294967296) with
  | none => exact Or.inr (detect_pixel_of_fault a y x hv)
  | some v => exact Or.inl (detect_pixel_of_loaded a y x v hv)

theorem detect_row_cases (y : Nat) (n : Nat) :
    ∀ (x : Nat) (a : ThreadProcessArgs),
      detect_row y n x a = .continue a ∨ detect_row y n x a = .sigsegv a := by
  induction n with
  | zero => intro x a; exact Or.inl rfl
  | succ n ih =>
    intro x a
    simp only [detect_row]
    rcases detect_pixel_cases a y x with h | h
    · rw [h]; exact ih (x + 1) a
    · rw [h]; exact Or.inr rfl

theorem detect_rows_cases (n : Nat) :
    ∀ (y : Nat) (a : ThreadProcessArgs),
      detect_rows n y a = .continue a ∨ detect_rows n y a = .sigsegv a := by
  induction n with
  | zero => intro y a; exact Or.inl rfl
  | succ n ih =>
    intro y a
    simp only [detect_rows]
    rcases detect_row_cases y a.width 0 a with h | h
    · rw [h]; exact ih (y + 1) a
    · rw [h]; exact Or.inr rfl

theorem detect_row_of_readable (y : Nat) (n : Nat) :
    ∀ (x : Nat) (a : ThreadProcessArgs),
      (∀ x1, x ≤ x1 → x1 < x + n → batch_readable a.pixel_data a.row_size y x1 = true) →
      detect_row y n x a = .continue a := by
  induction n with
  | zero => intro x a _; rfl
  | succ n ih =>
    intro x a h
    simp only [detect_row]
    rw [detect_pixel_of_readable a y x (h x (le_refl _) (by omega))]
    exact ih (x + 1) a (fun x1 h1 h2 => h x1 (by omega) (by omega))

theorem detect_rows_of_readable (n : Nat) :
    ∀ (y : Nat) (a : ThreadProcessArgs),
      (∀ y1 x1, y ≤ y1 → y1 < y + n → x1 < a.width →
        batch_readable a.pixel_data a.row_size y1 x1 = true) →
      detect_rows n y a = .continue a := by
  induction n with
  | zero => intro y a _; rfl
  | succ n ih =>
    intro y a h
    simp only [detect_rows]
    rw [detect_row_of_readable y a.width 0 a
      (fun x1 _ h2 => h y x1 (le_refl _) (by omega) (by omega))]
    exact ih (y + 1) a (fun y1 x1 h1 h2 h3 => h y1 x1 (by omega) (by omega) h3)

theorem detect_row_of_fault (y : Nat) (n : Nat) :
    ∀ (x x0 : Nat) (a : ThreadProcessArgs), x ≤ x0 → x0 < x + n →
      batch_readable a.pixel_data a.row_size y x0 = false →
      detect_row y n x a = .sigsegv a := by
  induction n with
  | zero => intro x x0 a h1 h2 _; omega
  | succ n ih =>
    intro x x0 a h1 h2 hf
    simp only [detect_row]
    by_cases hx : x = x0
    · subst hx
      unfold batch_readable at hf
      cases hv : mm256_loadu_si256 a.pixel_data ((y * a.row_size + x * 4) % 4294967296) with
      | none => rw [detect_pixel_of_fault a y x hv]
      | some v => rw [hv] at hf; cases hf
    · rcases detect_pixel_cases a y x with h | h
      · rw [h]
        exact ih (x + 1) x0 a (by omega) (by omega) hf
      · rw [h]

theorem detect_rows_of_fault (n : Nat) :
    ∀ (y y0 x0 : Nat) (a : ThreadProcessArgs), y ≤ y0 → y0 < y + n → x0 < a.width →
      batch_readable a.pixel_data a.row_size y0 x0 = false →
      detect_rows n y a = .sigsegv a := by
  induction n with
  | zero => intro y y0 x0 a h1 h2 _ _; omega
  | succ n ih =>
    intro y y0 x0 a h1 h2 hx hf
    simp only [detect_rows]
    by_cases hy : y = y0
    · subst hy
      rw [detect_row_of_fault y a.width 0 x0 a (by omega) (by omega) hf]
    · rcases detect_row_cases y a.width 0 a with h | h
      · rw [h]
        exact ih (y + 1) y0 x0 a (by omega) (by omega) hx hf
      · rw [h]

theorem rows_per_thread_thread_args (img : Main3.Image) (n i : Nat) (hn : 1 ≤ n) :
    rows_per_thread (thread_args img n i) = some (img.height / n) := by
  simp only [rows_per_thread, thread_args]
  rw [if_neg (by omega)]

theorem start_row_thread_args (img : Main3.Image) (n i : Nat) (hh : img.height < 4294967296)
    (hi : i < n) : start_row (thread_args img n i) = some (i * (img.height / n)) := by
  unfold start_row
  rw [rows_per_thread_thread_args img n i (by omega)]
  simp only [Option.map_some', thread_args, Option.some.injEq]
  apply Nat.mod_eq_of_lt
  have h1 : i * (img.height / n) ≤ n * (img.height / n) := Nat.mul_le_mul_right _ (by omega)
  have h2 : n * (img.height / n) ≤ img.height := Nat.mul_div_le _ _
  omega

theorem end_row_thread_args (img : Main3.Image) (n i : Nat) (hh : img.height < 4294967296)
    (hi : i + 1 < n) : end_row (thread_args img n i) = some ((i + 1) * (img.height / n)) := by
  unfold end_row
  rw [rows_per_thread_thread_args img n i (by omega)]
  simp only [Option.map_some', thread_args, Option.some.injEq]
  rw [if_neg (by omega)]
  apply Nat.mod_eq_of_lt
  have h1 : (i + 1) * (img.height / n) ≤ n * (img.height / n) :=
    Nat.mul_le_mul_right _ (by omega)
  have h2 : n * (img.height / n) ≤ img.height := Nat.mul_div_le _ _
  omega

theorem end_row_thread_args_last (img : Main3.Image) (n i : Nat) (hi : i + 1 = n) :
    end_row (thread_args img n i) = some img.height := by
  unfold end_row
  rw [rows_per_thread_thread_args img n i (by omega)]
  simp only [Option.map_some', thread_args, Option.some.injEq]
  rw [if_pos hi]

theorem start_row_eq_none (a : ThreadProcessArgs) (h : a.total_threads = 0) :
    start_row a = none := by
  simp [start_row, rows_per_thread, h]

theorem start_row_end_row_some (a : ThreadProcessArgs) (h : a.total_threads ≠ 0) :
    ∃ s e, start_row a = some s ∧ end_row a = some e := by
  simp [start_row, end_row, rows_per_thread, h]

theorem parallel_message_detect_record (a : ThreadProcessArgs) :
    (parallel_message_detect a).record = a := by
  unfold parallel_message_detect
  cases hs : start_row a with
  | none => rfl
  | some s =>
    cases he : end_row a with
    | none => rfl
    | some e =>
      simp only
      rcases detect_rows_cases (e - s) s a with h | h <;> rw [h] <;> rfl

end TestC

/-! ## `main.c` against `main3.c` -/

namespace MainC

theorem emit_fault (pd : Mem) (off : Nat) (st : PrintState) (h0 : st.message_len ≠ 0)
    (h : readable pd off = false) :
    emit pd off st = .sigsegv { st with reads := st.reads ++ [off] } := by
  unfold readable at h
  unfold emit
  cases hv : pd off with
  | none => simp [h0]
  | some v => rw [hv] at h; cases h

theorem call_args_lift (img : Main3.Image) (y x fh : Nat) :
    call_args img y x fh = lift_call (Main3.call_args img y x fh) := by
  have hb := Main3.load_lt img.pixel_data
    ((Main3.scan_index y (Main3.row_size img.width img.bit_per_pixel) x + 0) % 4294967296)
  have hr := Main3.load_lt img.pixel_data
    ((Main3.scan_index y (Main3.row_size img.width img.bit_per_pixel) x + 2) % 4294967296)
  simp only [call_args, lift_call, Main3.call_args, Call.mk.injEq, and_true, true_and]
  simp only [Main3.blue, Main3.red]
  unfold to_i32
  split_ifs <;> omega

theorem scan_pixel_lift (img : Main3.Image) (y x : Nat) (st : Main3.ScanState) :
    scan_pixel img y x st = lift_outcome (Main3.scan_pixel img y x st) := by
  unfold scan_pixel Main3.scan_pixel
  simp only
  split_ifs <;> simp only [lift_outcome, call_args_lift]

theorem scan_row_lift (img : Main3.Image) (y : Nat) (n : Nat) :
    ∀ (x : Nat) (st : Main3.ScanState),
      scan_row img y n x st = lift_outcome (Main3.scan_row img y n x st) := by
  induction n with
  | zero => intro x st; rfl
  | succ n ih =>
    intro x st
    simp only [scan_row, Main3.scan_row, scan_pixel_lift]
    cases Main3.scan_pixel img y x st with
    | «continue» st1 => simp only [lift_outcome]; exact ih _ _
    | resolved st1 y1 x1 c => rfl
    | sigsegv st1 => rfl

theorem scan_rows_lift (img : Main3.Image) (n : Nat) :
    ∀ (y : Nat) (st : Main3.ScanState),
      scan_rows img n y st = lift_outcome (Main3.scan_rows img n y st) := by
  induction n with
  | zero => intro y st; rfl
  | succ n ih =>
    intro y st
    simp only [scan_rows, Main3.scan_rows, scan_row_lift]
    cases Main3.scan_row img y img.width 0 st with
    | «continue» st1 => simp only [lift_outcome]; exact ih _ _
    | resolved st1 y1 x1 c => rfl
    | sigsegv st1 => rfl

theorem scan_lift (img : Main3.Image) : scan img = lift_outcome (Main3.scan img) :=
  scan_rows_lift img _ _ _

theorem print_message_div_by_zero (pd : Mem) (fuel : Nat) (ml y sx : Int) (rs : Nat) :
    print_message pd fuel ml y sx sx rs = some .div_by_zero := by
  unfold print_message
  simp

theorem to_i32_eq_of_eq (a b : Nat) (h : a % 4294967296 = b % 4294967296) :
    to_i32 a = to_i32 b := by
  unfold to_i32
  rw [h]

end MainC

/-! ## The claims, continued -/

namespace Main3

/-- Claim C11 (counterexample).  On `narrow_pixel_image` (width 4, height 1, 24
bits per pixel) the computed row stride is 12, so a buffer of
`row_stride * height = 12` bytes satisfies the claim's premise; the scan reads
column 3 at offsets 12, 13 and 14 (`0 * 12 + 3 * 4 + k`), which are not valid
indices of that buffer. -/
theorem scan_reads_past_narrow_rows :
    row_size narrow_pixel_image.width narrow_pixel_image.bit_per_pixel *
      narrow_pixel_image.height = 12 ∧
    scan_index 0 (row_size narrow_pixel_image.width narrow_pixel_image.bit_per_pixel) 3 + 0 =
      12 ∧
    scan narrow_pixel_image =
      .continue { found_header := 0, header_line := 0
                  reads := [0, 1, 2, 4, 5, 6, 8, 9, 10, 12, 13, 14], iters := 4 } := by
  decide!

/-- Claim C11 (amended).  For every geometry whose computed row stride is at
least `4 * width` (as it is for 32 bits per pixel) and every buffer of at least
`row_stride * height` bytes, every channel offset of the scan,
`row * row_stride + col * 4 + k` in `u32` arithmetic with `row < height`,
`col < width` and `k ≤ 2`, is a valid index of the buffer; and so is every
offset that the scan of `main3.c` has read when it ends, whether it resolves,
runs to the end or is killed in a load. -/
theorem scan_reads_in_bounds (img : Image) (size : Nat)
    (hstride : 4 * img.width ≤ row_size img.width img.bit_per_pixel)
    (hsize : row_size img.width img.bit_per_pixel * img.height ≤ size) :
    (∀ y < img.height, ∀ x < img.width, ∀ k ≤ 2,
      (scan_index y (row_size img.width img.bit_per_pixel) x + k) % 4294967296 < size) ∧
    (∀ st, scan img = .continue st → ∀ o ∈ st.reads, o < size) ∧
    (∀ st y x c, scan img = .resolved st y x c → ∀ o ∈ st.reads, o < size) ∧
    (∀ st, scan img = .sigsegv st → ∀ o ∈ st.reads, o < size) := by
  refine ⟨fun y hy x hx k hk => scan_offset_lt img size hstride hsize y x k hy hx hk, ?_⟩
  apply scan_induction img (fun _ _ st => ∀ o ∈ st.reads, o < size)
    (fun st _ _ _ => ∀ o ∈ st.reads, o < size) (fun st => ∀ o ∈ st.reads, o < size)
  · intro y x st hy hx hI
    have hnew : ∀ o ∈ st.reads ++
        [(scan_index y (row_size img.width img.bit_per_pixel) x + 0) % 4294967296,
         (scan_index y (row_size img.width img.bit_per_pixel) x + 1) % 4294967296,
         (scan_index y (row_size img.width img.bit_per_pixel) x + 2) % 4294967296],
        o < size := by
      intro o ho
      simp only [List.mem_append, List.mem_cons, List.mem_singleton, List.not_mem_nil,
        or_false] at ho
      rcases ho with ho | ho | ho | ho
      · exact hI o ho
      · rw [ho]; exact scan_offset_lt img size hstride hsize y x 0 hy hx (by omega)
      · rw [ho]; exact scan_offset_lt img size hstride hsize y x 1 hy hx (by omega)
      · rw [ho]; exact scan_offset_lt img size hstride hsize y x 2 hy hx (by omega)
    refine ⟨?_, ?_, ?_⟩
    · intro st1 h
      obtain ⟨_, hr, _⟩ := scan_pixel_continue h
      rw [hr]; exact hnew
    · intro st1 y1 x1 c h
      obtain ⟨_, _, _, hr⟩ := scan_pixel_resolved_state h
      rw [hr]; exact hnew
    · intro st1 h
      obtain ⟨_, _, _, _, k, hk, hr, _⟩ := scan_pixel_sigsegv h
      rw [hr]
      intro o ho
      simp only [List.mem_append, List.mem_map, List.mem_range] at ho
      rcases ho with ho | ⟨j, hj, ho⟩
      · exact hI o ho
      · rw [← ho]; exact scan_offset_lt img size hstride hsize y x j hy hx (by omega)
  · intro y st _ h; exact h
  · intro o ho; simp [scan_init] at ho

/-- Witness of C11 (amended): `resolving_image`, 4 by 4 pixels of 32 bits in 64
bytes. -/
theorem scan_reads_in_bounds_witness :
    (∀ y < resolving_image.height, ∀ x < resolving_image.width, ∀ k ≤ 2,
      (scan_index y (row_size resolving_image.width resolving_image.bit_per_pixel) x + k) %
        4294967296 < 64) ∧
    (∀ st, scan resolving_image = .continue st → ∀ o ∈ st.reads, o < 64) ∧
    (∀ st y x c, scan resolving_image = .resolved st y x c → ∀ o ∈ st.reads, o < 64) ∧
    (∀ st, scan resolving_image = .sigsegv st → ∀ o ∈ st.reads, o < 64) :=
  scan_reads_in_bounds resolving_image 64 (by decide) (by decide)

/-- Claim C12 (row stride).  For every width and bit depth with
`width * bits_per_pixel + 31 < 2 ^ 32`, the `row_size` of the code is
`((width * bits_per_pixel + 31) / 32) * 4`, a multiple of 4 with
`row_size * 8 ≥ width * bits_per_pixel`, and `row_size / 4` is the ceiling of
`width * bits_per_pixel / 32`: the least `k` with
`width * bits_per_pixel ≤ 32 * k`. -/
theorem row_size_is_padded_stride (width bit_per_pixel : Nat)
    (h : width * bit_per_pixel + 31 < 4294967296) :
    row_size width bit_per_pixel = (width * bit_per_pixel + 31) / 32 * 4 ∧
    row_size width bit_per_pixel % 4 = 0 ∧
    width * bit_per_pixel ≤ row_size width bit_per_pixel * 8 ∧
    (∀ k : Nat, width * bit_per_pixel ≤ 32 * k ↔ row_size width bit_per_pixel ≤ k * 4) := by
  unfold row_size
  rw [Nat.mod_eq_of_lt h]
  generalize width * bit_per_pixel = n
  refine ⟨rfl, by omega, by omega, fun k => by omega⟩

/-- Witness of C12: width 5 at 24 bits per pixel. -/
theorem row_size_is_padded_stride_witness :
    row_size 5 24 = (5 * 24 + 31) / 32 * 4 ∧
    row_size 5 24 % 4 = 0 ∧
    5 * 24 ≤ row_size 5 24 * 8 ∧
    (∀ k : Nat, 5 * 24 ≤ 32 * k ↔ row_size 5 24 ≤ k * 4) :=
  row_size_is_padded_stride 5 24 (by decide)

/-- Claim C13 (header detection, evaluated at the failing input).  On
`column_zero_image` the first marker pixel in raster order is at column 0 of
row 2 and the next marker pixel is at column 1 of the same row, followed by a
non-marker pixel.  The scan ends with `found_header = 1` and `header_line = 0`:
the marker at column 0 left `found_header` at 0, the marker at column 1 was
recorded as a first marker and did not close the header, and `print_message`
is never called. -/
theorem first_marker_in_column_zero_is_lost :
    is_marker column_zero_image 2 0 ∧ is_marker column_zero_image 2 1 ∧
    ¬ is_marker column_zero_image 2 2 ∧
    scan column_zero_image =
      .continue { found_header := 1, header_line := 0
                  reads := (List.range 12).flatMap (fun p => [4 * p, 4 * p + 1, 4 * p + 2])
                  iters := 12 } ∧
    (main 16 column_zero_image).map (fun r => (r.out, r.calls)) = some ([], []) := by
  decide!

/-- Claim C14 (length-resolution trigger, evaluated at the failing input).  On
`near_marker_image` the header is closed at column 2 of row 2; the next pixel,
`(127, 188, 5)` at column 3, is not a marker pixel, but the pass over it
leaves the state as it is, and the scan resolves one pixel later, at column 4,
with `message_len = 5` instead of `132`. -/
theorem near_marker_pixel_is_skipped :
    is_marker near_marker_image 2 1 ∧ is_marker near_marker_image 2 2 ∧
    ¬ is_marker near_marker_image 2 3 ∧
    blue near_marker_image 2 3 + red near_marker_image 2 3 = 132 ∧
    scan_pixel near_marker_image 2 3
        { found_header := 1, header_line := 1, reads := [], iters := 0 } =
      .continue { found_header := 1, header_line := 1, reads := [52, 53, 54], iters := 1 } ∧
    scan near_marker_image =
      .resolved
        { found_header := 1, header_line := 1
          reads := (List.range 15).flatMap (fun p => [4 * p, 4 * p + 1, 4 * p + 2])
          iters := 15 }
        2 4 { message_len := 5, y := 0, start_x := 3, end_x := 4, row_size := 20 } := by
  decide!

end Main3

namespace TestC

/-- Claim C15 (row partition).  For every height (a `u32`) and every number
`n ≥ 1` of threads, the division of lines 57 and 59 does not trap, and the
ranges `[start_row, end_row)` of threads `0 .. n - 1` start at row 0, end at
row `height`, each range but the last ends where the next begins and has
`height / n` rows, the last has `height / n + height % n` rows, and every row
below `height` lies in exactly one range. -/
theorem row_ranges_tile_the_image (img : Main3.Image) (n : Nat)
    (hh : img.height < 4294967296) (hn : 1 ≤ n) :
    start_row (thread_args img n 0) = some 0 ∧
    end_row (thread_args img n (n - 1)) = some img.height ∧
    (∀ i < n, ∃ s e, start_row (thread_args img n i) = some s ∧
      end_row (thread_args img n i) = some e ∧ s ≤ e) ∧
    (∀ i, i + 1 < n →
      end_row (thread_args img n i) = start_row (thread_args img n (i + 1)) ∧
      end_row (thread_args img n i) =
        (start_row (thread_args img n i)).map (fun s => s + img.height / n)) ∧
    end_row (thread_args img n (n - 1)) =
      (start_row (thread_args img n (n - 1))).map
        (fun s => s + (img.height / n + img.height % n)) ∧
    (∀ y < img.height, ∃ i < n,
      in_row_range (thread_args img n i) y ∧
      ∀ j < n, in_row_range (thread_args img n j) y → j = i) := by
  have hlast := end_row_thread_args_last img n (n - 1) (by omega)
  have hdm : n * (img.height / n) + img.height % n = img.height := Nat.div_add_mod _ _
  have hsplit : n * (img.height / n) = (n - 1) * (img.height / n) + img.height / n := by
    generalize img.height / n = q
    calc n * q = ((n - 1) + 1) * q := by rw [Nat.sub_add_cancel hn]
      _ = (n - 1) * q + q := by ring
  have hstart : ∀ j < n, start_row (thread_args img n j) = some (j * (img.height / n)) :=
    fun j hj => start_row_thread_args img n j hh hj
  have hend : ∀ j, j + 1 < n →
      end_row (thread_args img n j) = some ((j + 1) * (img.height / n)) :=
    fun j hj => end_row_thread_args img n j hh hj
  have hin : ∀ j, j + 1 < n → ∀ y, in_row_range (thread_args img n j) y ↔
      (j * (img.height / n) ≤ y ∧ y < (j + 1) * (img.height / n)) := by
    intro j hj y
    unfold in_row_range
    rw [hstart j (by omega), hend j hj]
    constructor
    · rintro ⟨s, e, hs, he, h1, h2⟩
      simp only [Option.some.injEq] at hs he
      subst hs he
      exact ⟨h1, h2⟩
    · rintro ⟨h1, h2⟩
      exact ⟨_, _, rfl, rfl, h1, h2⟩
  have hinlast : ∀ y, in_row_range (thread_args img n (n - 1)) y ↔
      ((n - 1) * (img.height / n) ≤ y ∧ y < img.height) := by
    intro y
    unfold in_row_range
    rw [hstart (n - 1) (by omega), hlast]
    constructor
    · rintro ⟨s, e, hs, he, h1, h2⟩
      simp only [Option.some.injEq] at hs he
      subst hs he
      exact ⟨h1, h2⟩
    · rintro ⟨h1, h2⟩
      exact ⟨_, _, rfl, rfl, h1, h2⟩
  refine ⟨by rw [hstart 0 (by omega)]; simp, hlast, ?_, ?_, ?_, ?_⟩
  · intro i hi
    by_cases hi1 : i + 1 < n
    · refine ⟨_, _, hstart i hi, hend i hi1, ?_⟩
      exact Nat.mul_le_mul_right _ (by omega)
    · have hie : i = n - 1 := by omega
      subst hie
      refine ⟨_, _, hstart _ hi, hlast, ?_⟩
      exact le_trans (Nat.mul_le_mul_right _ (Nat.sub_le _ _)) (Nat.mul_div_le _ _)
  · intro i hi
    rw [hend i hi, hstart (i + 1) hi, hstart i (by omega)]
    refine ⟨rfl, ?_⟩
    simp only [Option.map_some', Option.some.injEq]
    ring
  · rw [hlast, hstart (n - 1) (by omega)]
    simp only [Option.map_some', Option.some.injEq]
    omega
  · intro y hy
    -- ranges are ordered: a range before the last ends before any later one starts
    have huniq : ∀ i j, i < n → j < n →
        in_row_range (thread_args img n i) y → in_row_range (thread_args img n j) y →
        j = i := by
      have hlow : ∀ j < n, in_row_range (thread_args img n j) y →
          j * (img.height / n) ≤ y := by
        intro j hj h
        by_cases hj1 : j + 1 < n
        · exact ((hin j hj1 y).1 h).1
        · have hje : j = n - 1 := by omega
          subst hje
          exact ((hinlast y).1 h).1
      have hhigh : ∀ j, j + 1 < n → in_row_range (thread_args img n j) y →
          y < (j + 1) * (img.height / n) := fun j hj1 h => ((hin j hj1 y).1 h).2
      intro i j hi hj h1 h2
      rcases Nat.lt_trichotomy i j with h | h | h
      · have ha := hhigh i (by omega) h1
        have hb := hlow j hj h2
        have hc : (i + 1) * (img.height / n) ≤ j * (img.height / n) :=
          Nat.mul_le_mul_right _ (by omega)
        omega
      · exact h.symm
      · have ha := hhigh j (by omega) h2
        have hb := hlow i hi h1
        have hc : (j + 1) * (img.height / n) ≤ i * (img.height / n) :=
          Nat.mul_le_mul_right _ (by omega)
        omega
    by_cases hq : y < (n - 1) * (img.height / n)
    · -- y lies in one of the ranges before the last
      have hqpos : 0 < img.height / n := by
        rcases Nat.eq_zero_or_pos (img.height / n) with h0 | h0
        · rw [h0] at hq; simp at hq
        · exact h0
      have hi : y / (img.height / n) < n - 1 := (Nat.div_lt_iff_lt_mul hqpos).2 hq
      have hmem : in_row_range (thread_args img n (y / (img.height / n))) y := by
        rw [hin _ (by omega)]
        refine ⟨Nat.div_mul_le_self _ _, ?_⟩
        exact (Nat.div_lt_iff_lt_mul hqpos).1 (Nat.lt_succ_iff.2 (le_refl _))
      exact ⟨y / (img.height / n), by omega, hmem,
        fun j hj h3 => huniq _ j (by omega) hj hmem h3⟩
    · have hmem : in_row_range (thread_args img n (n - 1)) y := by
        rw [hinlast]
        exact ⟨by omega, hy⟩
      exact ⟨n - 1, by omega, hmem, fun j hj h3 => huniq _ j (by omega) hj hmem h3⟩

/-- Witness of C15: height 4 and three threads. -/
theorem row_ranges_tile_the_image_witness :
    start_row (thread_args resolving_image 3 0) = some 0 ∧
    end_row (thread_args resolving_image 3 (3 - 1)) = some resolving_image.height ∧
    (∀ i < 3, ∃ s e, start_row (thread_args resolving_image 3 i) = some s ∧
      end_row (thread_args resolving_image 3 i) = some e ∧ s ≤ e) ∧
    (∀ i, i + 1 < 3 →
      end_row (thread_args resolving_image 3 i) =
        start_row (thread_args resolving_image 3 (i + 1)) ∧
      end_row (thread_args resolving_image 3 i) =
        (start_row (thread_args resolving_image 3 i)).map
          (fun s => s + resolving_image.height / 3)) ∧
    end_row (thread_args resolving_image 3 (3 - 1)) =
      (start_row (thread_args resolving_image 3 (3 - 1))).map
        (fun s => s + (resolving_image.height / 3 + resolving_image.height % 3)) ∧
    (∀ y < resolving_image.height, ∃ i < 3,
      in_row_range (thread_args resolving_image 3 i) y ∧
      ∀ j < 3, in_row_range (thread_args resolving_image 3 j) y → j = i) :=
  row_ranges_tile_the_image resolving_image 3 (by decide) (by decide)

/-- Claim C17 (counterexample).  The worker does not return for every record
and buffer.  With `total_threads = 0` it is killed by `SIGFPE` in the division
of line 57.  On `page_end_image`, whose four pixel bytes end where the mapped
file ends, the single worker that `main` starts with one thread is killed by
`SIGSEGV` in the 32-byte load at pixel `(0, 0)`, which takes in the 28 bytes
after the buffer.  In both cases `found_header` and `message_len` are still
0. -/
theorem worker_is_killed :
    (parallel_message_detect (thread_args resolving_image 0 0)).signal = some 8 ∧
    (thread_args resolving_image 0 0).total_threads = 0 ∧
    (run_threads page_end_image 1).map
      (fun e => (e.signal, e.record.found_header, e.record.message_len)) = [(some 11, 0, 0)] ∧
    Main3.row_size page_end_image.width page_end_image.bit_per_pixel * page_end_image.height =
      4 ∧
    (List.range 4).map (fun i => readable page_end_image.pixel_data i) =
      [true, true, true, true] ∧
    readable page_end_image.pixel_data 4 = false := by
  decide!

/-- Claim C17 (amended: the vector test never matches).  For every 32 bytes
loaded and every record: `_mm256_srli_epi16(pixel_vec, 16)` is zero in every
byte, hence so are `red_mask` and `combined_mask`, the value of
`_mm256_movemask_epi8` is zero, and the branch of line 101 is not taken at any
pixel; a pass of the loop body either goes on with the record unchanged or, if
one of the 32 addresses loaded from is not mapped, is killed.  So the worker
leaves the record as it was, however it ends; for the records that `main`
prepares, `found_header` and `message_len` are still 0, whatever the image
holds.  The worker is killed in the division of line 57 when `total_threads`
is zero; otherwise it returns if the 32-byte load succeeds at every pixel of
its row range, and is killed by the load if it fails at one of them. -/
theorem combined_mask_never_matches (a : ThreadProcessArgs) (pixel_vec : M256) :
    (∀ i, mm256_srli_epi16 pixel_vec 16 i = 0) ∧
    (∀ i, red_mask pixel_vec i = 0) ∧
    (∀ i, combined_mask pixel_vec i = 0) ∧
    mm256_movemask_epi8 (combined_mask pixel_vec) = 0 ∧
    (∀ y x, ¬ reports_match a.pixel_data a.row_size y x) ∧
    (∀ y x, detect_pixel a y x =
      if batch_readable a.pixel_data a.row_size y x = true then .continue a else .sigsegv a) ∧
    (parallel_message_detect a).record = a ∧
    (∀ (img : Main3.Image) (num_threads i : Nat),
      (parallel_message_detect (thread_args img num_threads i)).record.found_header = 0 ∧
      (parallel_message_detect (thread_args img num_threads i)).record.message_len = 0) ∧
    (a.total_threads = 0 → parallel_message_detect a = .sigfpe a) ∧
    (a.total_threads ≠ 0 →
      (∀ y x, in_row_range a y → x < a.width →
        batch_readable a.pixel_data a.row_size y x = true) →
      parallel_message_detect a = .returned a) ∧
    (a.total_threads ≠ 0 →
      (∃ y x, in_row_range a y ∧ x < a.width ∧
        batch_readable a.pixel_data a.row_size y x = false) →
      parallel_message_detect a = .sigsegv a) := by
  refine ⟨fun i => by simp [mm256_srli_epi16], red_mask_zero pixel_vec,
    combined_mask_zero pixel_vec, movemask_combined_zero pixel_vec, ?_, ?_,
    parallel_message_detect_record a, ?_, ?_, ?_, ?_⟩
  · rintro y x ⟨v, _, hv⟩
    exact hv (movemask_combined_zero v)
  · intro y x
    by_cases hb : batch_readable a.pixel_data a.row_size y x = true
    · rw [if_pos hb]; exact detect_pixel_of_readable a y x hb
    · rw [if_neg hb]
      unfold batch_readable at hb
      cases hv : mm256_loadu_si256 a.pixel_data ((y * a.row_size + x * 4) % 4294967296) with
      | none => exact detect_pixel_of_fault a y x hv
      | some v => rw [hv] at hb; exact absurd rfl hb
  · intro img n i
    rw [parallel_message_detect_record]
    exact ⟨rfl, rfl⟩
  · intro h0
    unfold parallel_message_detect
    rw [start_row_eq_none a h0]
  · intro h0 hread
    obtain ⟨s, e, hs, he⟩ := start_row_end_row_some a h0
    unfold parallel_message_detect
    rw [hs, he]
    simp only
    rw [detect_rows_of_readable (e - s) s a (fun y1 x1 h1 h2 h3 =>
      hread y1 x1 ⟨s, e, hs, he, h1, by omega⟩ h3)]
  · rintro h0 ⟨y, x, ⟨s, e, hs, he, h1, h2⟩, hx, hf⟩
    unfold parallel_message_detect
    rw [hs, he]
    simp only
    rw [detect_rows_of_fault (e - s) s y x a h1 (by omega) hx hf]

/-- Witness of C17 (amended): the second of two workers on `resolving_image`
(rows 2 and 3, which hold the header line) has `total_threads = 2`, all its
32-byte loads succeed, and it returns with its record unchanged. -/
theorem combined_mask_never_matches_witness :
    parallel_message_detect (thread_args resolving_image 2 1) =
      .returned (thread_args resolving_image 2 1) :=
  (combined_mask_never_matches (thread_args resolving_image 2 1) marker_batch).2.2.2.2.2.2.2.2.2.1
    (by decide) (by
      rintro y x ⟨s, e, hs, he, h1, h2⟩ hx
      have hs2 : start_row (thread_args resolving_image 2 1) = some 2 := by decide!
      have he4 : end_row (thread_args resolving_image 2 1) = some 4 := by decide!
      rw [hs2] at hs
      rw [he4] at he
      simp only [Option.some.injEq] at hs he
      subst hs he
      have hx4 : x < 4 := hx
      interval_cases y <;> interval_cases x <;> decide!)

end TestC

namespace MainC

/-- Claim C18 (counterexample).  On `low_header_image` the first marker is at
column 1, the closing marker at column 2 and the pixel at column 3 of the same
row resolves the length 5.  `main` of `main.c` ends in the division by zero
with nothing written, as the claim says; but `main` of `main3.c` does not
extract the message: the header lies on row 1, the call has `y = -1`, none of
the five addresses passed to `write` is mapped, and `main` returns with
nothing written. -/
theorem main3_extracts_nothing_below_row_two :
    scan low_header_image = .resolved Main3.low_header_state 1 3
      { message_len := 5, y := -1, start_x := 3, end_x := 3, row_size := 16 } ∧
    Main3.low_header_state.found_header + 2 = 3 ∧
    main 2 low_header_image =
      some (.div_by_zero []
        [{ message_len := 5, y := -1, start_x := 3, end_x := 3, row_size := 16 }]) ∧
    Main3.blue low_header_image 1 3 + Main3.red low_header_image 1 3 = 5 ∧
    (Main3.main 2 low_header_image).map (fun r => (r.status, r.out)) = some (some 0, []) := by
  decide!

/-- Claim C18 (amended: division by zero in `main.c`).  `print_message` of
`main.c` evaluates `message_len / (end_x * 4 - start_x * 4)` before its loops;
the divisor is zero exactly when `end_x = start_x`, and the call ends in that
division exactly then.  Whenever the scan of `main.c` resolves at column
`found_header + 2`, the call has `end_x = start_x` and `main` of `main.c` ends
in the division with nothing written, while `main` of `main3.c` returns as
soon as its loop is allowed `ceil ((blue + red) / 3)` passes, having passed
`blue + red` addresses to `write`; it has written the bytes at the mapped ones
among them, which are `blue + red` bytes when all these addresses are
mapped. -/
theorem main_c_divides_by_zero (img : Main3.Image) (st : Main3.ScanState) (y x : Nat)
    (c : Call) (fuel : Nat)
    (h : scan img = .resolved st y x c) (hx : x = st.found_header + 2) :
    c.end_x = c.start_x ∧ c.end_x * 4 - c.start_x * 4 = 0 ∧
    main fuel img = some (.div_by_zero [] [c]) ∧
    (∀ n, Main3.rows_needed (Main3.blue img y x + Main3.red img y x) 1 ≤ n →
      ∃ run : Main3.Run, Main3.main n img = some (.returned run) ∧
        run.print_reads.length = Main3.blue img y x + Main3.red img y x ∧
        run.out = Main3.bytes_at img.pixel_data run.print_reads ∧
        run.out.length ≤ Main3.blue img y x + Main3.red img y x ∧
        ((∀ o ∈ run.print_reads, readable img.pixel_data o = true) →
          run.out.length = Main3.blue img y x + Main3.red img y x)) ∧
    (∀ (pixel_data : Mem) (bound : Nat) (message_len start_row start_col end_col : Int)
        (row_stride : Nat),
      (end_col * 4 - start_col * 4 = 0 ↔ end_col = start_col) ∧
      (print_message pixel_data bound message_len start_row start_col end_col row_stride =
          some .div_by_zero ↔ end_col = start_col)) := by
  rw [scan_lift] at h
  cases h3 : Main3.scan img with
  | «continue» st3 => rw [h3] at h; simp [lift_outcome] at h
  | sigsegv st3 => rw [h3] at h; simp [lift_outcome] at h
  | resolved st3 y3 x3 c3 =>
    rw [h3] at h
    simp only [lift_outcome, Outcome.resolved.injEq] at h
    obtain ⟨hst, hy, hx3, hc⟩ := h
    subst hst hy hx3
    obtain ⟨_, hxw, hc3⟩ := Main3.scan_resolved h3
    have hb := Main3.load_lt img.pixel_data
      ((Main3.scan_index y3 (Main3.row_size img.width img.bit_per_pixel) x3 + 0) % 4294967296)
    have hr := Main3.load_lt img.pixel_data
      ((Main3.scan_index y3 (Main3.row_size img.width img.bit_per_pixel) x3 + 2) % 4294967296)
    have hlen : c3.message_len = Main3.blue img y3 x3 + Main3.red img y3 x3 := by
      rw [hc3]; simp only [Main3.call_args, Main3.blue, Main3.red]; omega
    have heq3 : c3.end_x = c3.start_x := by
      rw [hc3]; simp only [Main3.call_args]
      apply to_i32_eq_of_eq
      rw [hx]; simp
    have heq : c.end_x = c.start_x := by rw [← hc]; exact heq3
    refine ⟨heq, by rw [heq]; ring, ?_, ?_, ?_⟩
    · unfold main
      rw [scan_lift, h3]
      simp only [lift_outcome]
      rw [hc, heq, print_message_div_by_zero]
    · intro n hn
      have hw : (c3.end_x + 1 - c3.start_x).toNat = 1 := by rw [heq3]; omega
      have hp := Main3.print_message_eq img.pixel_data n c3.message_len c3.y c3.start_x c3.end_x
        c3.row_size (by rw [hlen]; simp only [Main3.blue, Main3.red]; omega) (by rw [heq3])
        (by rw [hw, hlen]; exact hn)
      have hcover := Main3.le_mul_rows_needed c3.message_len 1 (le_refl 1)
      have hreads : ((Main3.stream_offsets c3.row_size c3.start_x (c3.end_x + 1 - c3.start_x).toNat
          (Main3.rows_needed c3.message_len (c3.end_x + 1 - c3.start_x).toNat) c3.y).take
          c3.message_len).length = Main3.blue img y3 x3 + Main3.red img y3 x3 := by
        simp only [List.length_take, Main3.length_stream_offsets, hw]
        rw [← hlen]
        omega
      refine ⟨_, by unfold Main3.main; rw [h3]; simp only; rw [hp], hreads, rfl, ?_, ?_⟩
      · have hle := Main3.bytes_at_length_le img.pixel_data
          ((Main3.stream_offsets c3.row_size c3.start_x (c3.end_x + 1 - c3.start_x).toNat
            (Main3.rows_needed c3.message_len (c3.end_x + 1 - c3.start_x).toNat) c3.y).take
            c3.message_len)
        rw [hreads] at hle
        exact hle
      · intro hread
        simp only at hread ⊢
        rw [Main3.bytes_at_of_readable _ _ hread, List.length_map]
        exact hreads
    · intro pd bound ml sr sc ec rs
      refine ⟨by omega, ?_⟩
      unfold print_message
      by_cases hz : ec * 4 - sc * 4 = 0
      · rw [if_pos hz]; simp only [true_iff]; omega
      · rw [if_neg hz]
        have hne : ec ≠ sc := by omega
        simp only [hne, iff_false]
        cases print_loop pd rs sc ec bound
            { message_len := ml, y := sr, out := [], reads := [] } with
        | none => simp
        | some p => cases p <;> simp

/-- Witness of C18 (amended): `resolving_image`, whose header is two pixels
wide. -/
theorem main_c_divides_by_zero_witness :
    (3 : Int) = 3 ∧ (3 : Int) * 4 - 3 * 4 = 0 ∧
    main 7 resolving_image =
      some (.div_by_zero []
        [{ message_len := 5, y := 1, start_x := 3, end_x := 3, row_size := 16 }]) ∧
    (∀ n, Main3.rows_needed (Main3.blue resolving_image 3 3 + Main3.red resolving_image 3 3) 1 ≤ n →
      ∃ run : Main3.Run, Main3.main n resolving_image = some (.returned run) ∧
        run.print_reads.length =
          Main3.blue resolving_image 3 3 + Main3.red resolving_image 3 3 ∧
        run.out = Main3.bytes_at resolving_image.pixel_data run.print_reads ∧
        run.out.length ≤ Main3.blue resolving_image 3 3 + Main3.red resolving_image 3 3 ∧
        ((∀ o ∈ run.print_reads, readable resolving_image.pixel_data o = true) →
          run.out.length = Main3.blue resolving_image 3 3 + Main3.red resolving_image 3 3)) ∧
    (∀ (pixel_data : Mem) (bound : Nat) (message_len start_row start_col end_col : Int)
        (row_stride : Nat),
      (end_col * 4 - start_col * 4 = 0 ↔ end_col = start_col) ∧
      (print_message pixel_data bound message_len start_row start_col end_col row_stride =
          some .div_by_zero ↔ end_col = start_col)) :=
  main_c_divides_by_zero resolving_image Main3.resolving_state 3 3
    { message_len := 5, y := 1, start_x := 3, end_x := 3, row_size := 16 } 7
    (by decide!) (by decide)

end MainC

end Forking42
